import Mathlib

/-!
Shallow embedding of the common-log-format crate (src/lib.rs) together with
the parts of its dependencies that the library calls into: the standard
library textual IP-address parser, integer parsing for usize, the http crate
status-code functions, and the chrono RFC 3339 timestamp parser.  Strings are
modelled as lists of characters; Rust byte indices coincide with character
indices on the ASCII inputs the claims exercise, and splitting positions agree
in general.  A Rust panic (the unreachable branches in the peel functions) is
modelled by the value none of an outer Option layer.
-/

namespace CLF

/-- Decidable equality of Except values, used to evaluate the model on
concrete inputs. -/
instance {ε α : Type} [DecidableEq ε] [DecidableEq α] : DecidableEq (Except ε α) := fun x y =>
  match x, y with
  | .error a, .error b =>
    if h : a = b then .isTrue (by rw [h]) else .isFalse (by simp [h])
  | .ok a, .ok b =>
    if h : a = b then .isTrue (by rw [h]) else .isFalse (by simp [h])
  | .error _, .ok _ => .isFalse (by simp)
  | .ok _, .error _ => .isFalse (by simp)

/-- Model of the Rust char.is_whitespace predicate (the Unicode White_Space
property), used by str.trim_start. -/
def rustIsWhitespace (c : Char) : Bool :=
  let n := c.toNat
  (9 ≤ n && n ≤ 13) || n == 32 || n == 133 || n == 160 || n == 5760 ||
    (8192 ≤ n && n ≤ 8202) || n == 8232 || n == 8233 || n == 8239 ||
    n == 8287 || n == 12288

/-- Model of str.trim_start: drop leading whitespace characters. -/
def trimStart (l : List Char) : List Char := l.dropWhile rustIsWhitespace

/-- Model of line.find(' ').unwrap_or(line.len()): the index of the first
space character, or the length when there is none. -/
def firstSpaceIdx : List Char → Nat
  | [] => 0
  | c :: t => if c = ' ' then 0 else firstSpaceIdx t + 1

/-- Model of str.find(c): index of the first occurrence of a character. -/
def findCharIdx? (c : Char) : List Char → Option Nat
  | [] => none
  | x :: t => if x = c then some 0 else (findCharIdx? c t).map (· + 1)

/-- Model of char.to_digit(radix). -/
def char_to_digit (radix : Nat) (c : Char) : Option Nat :=
  let n := c.toNat
  let v : Option Nat :=
    if 48 ≤ n ∧ n ≤ 57 then some (n - 48)
    else if 97 ≤ n ∧ n ≤ 122 then some (n - 87)
    else if 65 ≤ n ∧ n ≤ 90 then some (n - 55)
    else none
  match v with
  | some d => if d < radix then some d else none
  | none => none

/-- Model of std::net::AddrParseError (the kind carried by IpAddr parsing). -/
inductive AddrParseError
  | ip
deriving DecidableEq, Repr

/-- Model of chrono::format::ParseError kinds relevant here. -/
inductive ChronoParseError
  | outOfRange
  | invalid
  | tooShort
  | tooLong
deriving DecidableEq, Repr

/-- Model of http::status::InvalidStatusCode. -/
inductive InvalidStatusCode
  | mk
deriving DecidableEq, Repr

/-- Model of std::num::ParseIntError kinds relevant to unsigned parsing. -/
inductive ParseIntError
  | empty
  | invalidDigit
  | posOverflow
deriving DecidableEq, Repr

/-- The error enum LogEntryParseError of src/lib.rs. -/
inductive LogEntryParseError
  | FieldNotFound
  | IpAddrParse (e : AddrParseError)
  | DateTimeParse (e : ChronoParseError)
  | StatusCodeParse (e : InvalidStatusCode)
  | SizeParse (e : ParseIntError)
deriving DecidableEq, Repr

/-- Model of std::net::IpAddr as parsed values: four v4 octets or eight v6
sixteen-bit groups. -/
inductive IpAddr
  | v4 : Nat → Nat → Nat → Nat → IpAddr
  | v6 : List Nat → IpAddr
deriving DecidableEq, Repr

/-- Model of core::net::parser read_number: greedily read digits in the given
radix, accumulating with overflow checks against cap (the max of the target
integer type), failing on overflow or on more than maxDigits digits.  Returns
the accumulated value, the digit count, and the remaining input. -/
def readNumGo (radix maxDigits cap : Nat) : Nat → Nat → List Char → Option (Nat × Nat × List Char)
  | acc, cnt, [] => some (acc, cnt, [])
  | acc, cnt, c :: rest =>
    match char_to_digit radix c with
    | none => some (acc, cnt, c :: rest)
    | some d =>
      if acc * radix > cap then none
      else if acc * radix + d > cap then none
      else if cnt + 1 > maxDigits then none
      else readNumGo radix maxDigits cap (acc * radix + d) (cnt + 1) rest

/-- Model of core::net::parser Parser::read_number: at least one digit, and a
leading zero is rejected for multi-digit numbers unless allowZeroPrefix. -/
def read_number (radix maxDigits cap : Nat) (allowZeroPrefix : Bool) (s : List Char) :
    Option (Nat × List Char) :=
  match readNumGo radix maxDigits cap 0 0 s with
  | none => none
  | some (v, cnt, rest) =>
    if cnt = 0 then none
    else if allowZeroPrefix = false ∧ s.head? = some '0' ∧ 1 < cnt then none
    else some (v, rest)

/-- Model of Parser::read_given_char. -/
def readGiven (c : Char) : List Char → Option (List Char)
  | [] => none
  | x :: rest => if x = c then some rest else none

/-- Model of Parser::read_ipv4_addr: four dot-separated decimal octets, each
at most three digits, no leading zeros, each at most 255. -/
def read_ipv4 (s : List Char) : Option ((Nat × Nat × Nat × Nat) × List Char) := do
  let (a, s) ← read_number 10 3 255 false s
  let s ← readGiven '.' s
  let (b, s) ← read_number 10 3 255 false s
  let s ← readGiven '.' s
  let (c, s) ← read_number 10 3 255 false s
  let s ← readGiven '.' s
  let (d, s) ← read_number 10 3 255 false s
  some ((a, b, c, d), s)

/-- Model of Parser::read_separator: a colon is required except for the first
group of a run. -/
def readSep {α : Type} (first : Bool) (inner : List Char → Option (α × List Char))
    (s : List Char) : Option (α × List Char) :=
  if first then inner s
  else
    match readGiven ':' s with
    | none => none
    | some s1 => inner s1

/-- Model of the read_groups helper inside Parser::read_ipv6_addr, expressed
by the number of group slots left.  An embedded trailing IPv4 address is only
attempted while at least two slots remain.  Returns the groups read, whether
the run ended with an embedded IPv4 pair, and the remaining input. -/
def read_groups : Nat → Bool → List Char → (List Nat × Bool × List Char)
  | 0, _, s => ([], false, s)
  | 1, first, s =>
    match readSep first (read_number 16 4 65535 true) s with
    | some (g, s1) => ([g], false, s1)
    | none => ([], false, s)
  | n + 2, first, s =>
    match readSep first read_ipv4 s with
    | some ((a, b, c, d), s1) => ([a * 256 + b, c * 256 + d], true, s1)
    | none =>
      match readSep first (read_number 16 4 65535 true) s with
      | some (g, s1) =>
        let (gs, endsV4, s2) := read_groups (n + 1) false s1
        (g :: gs, endsV4, s2)
      | none => ([], false, s)

/-- Model of Parser::read_ipv6_addr: read up to eight head groups; a full head
is the address; otherwise a double colon followed by tail groups, the gap
filled with zero groups.  An embedded IPv4 pair may not end the head. -/
def read_ipv6 (s : List Char) : Option (List Nat × List Char) :=
  let (hd, headV4, s1) := read_groups 8 true s
  if hd.length = 8 then some (hd, s1)
  else if headV4 then none
  else
    match readGiven ':' s1 with
    | none => none
    | some s2 =>
      match readGiven ':' s2 with
      | none => none
      | some s3 =>
        let (tl, _, s4) := read_groups (8 - (hd.length + 1)) true s3
        some (hd ++ List.replicate (8 - (hd.length + tl.length)) 0 ++ tl, s4)

/-- Model of Parser::read_ip_addr: try IPv4 first, then IPv6. -/
def read_ip (s : List Char) : Option (IpAddr × List Char) :=
  match read_ipv4 s with
  | some ((a, b, c, d), rest) => some (.v4 a b c d, rest)
  | none =>
    match read_ipv6 s with
    | some (gs, rest) => some (.v6 gs, rest)
    | none => none

/-- Model of IpAddr::from_str: the whole input must be consumed. -/
def parse_ip_addr (s : List Char) : Except AddrParseError IpAddr :=
  match read_ip s with
  | some (ip, []) => .ok ip
  | _ => .error .ip

/-- Largest usize value, assuming the usual 64-bit platform. -/
def usizeMax : Nat := 18446744073709551615

/-- Digit loop of core from_str_radix for an unsigned 64-bit target. -/
def parse_usize_digits : List Char → Nat → Except ParseIntError Nat
  | [], acc => .ok acc
  | c :: rest, acc =>
    match char_to_digit 10 c with
    | none => .error .invalidDigit
    | some d =>
      if acc * 10 > usizeMax then .error .posOverflow
      else if acc * 10 + d > usizeMax then .error .posOverflow
      else parse_usize_digits rest (acc * 10 + d)

/-- Model of str.parse::<usize>() (core from_str_radix with radix 10): empty
input is an error, an optional leading plus sign, then decimal digits with an
overflow check. -/
def parse_usize (s : List Char) : Except ParseIntError Nat :=
  match s with
  | [] => .error .empty
  | c :: rest =>
    if c = '+' then
      match rest with
      | [] => .error .invalidDigit
      | _ => parse_usize_digits rest 0
    else parse_usize_digits s 0

/-- Model of http::StatusCode: a bare sixteen-bit code value. -/
structure StatusCode where
  code : Nat
deriving DecidableEq, Repr

/-- Model of StatusCode::as_u16. -/
def StatusCode.as_u16 (s : StatusCode) : Nat := s.code

/-- Wrapping byte subtraction of the digit zero, as in u8::wrapping_sub. -/
def byteWrapSub48 (c : Char) : Nat := (c.toNat + 256 - 48) % 256

/-- Model of http StatusCode::from_bytes (reached through FromStr): exactly
three digits whose first digit is nonzero, giving a value in 100..=999. -/
def StatusCode.from_bytes (s : List Char) : Except InvalidStatusCode StatusCode :=
  match s with
  | [a, b, c] =>
    let da := byteWrapSub48 a
    let db := byteWrapSub48 b
    let dc := byteWrapSub48 c
    if da = 0 ∨ 9 < da ∨ 9 < db ∨ 9 < dc then .error .mk
    else .ok ⟨da * 100 + db * 10 + dc⟩
  | _ => .error .mk

/-- Model of http StatusCode::from_u16: the accepted range is 100..=999. -/
def StatusCode.from_u16 (n : Nat) : Except InvalidStatusCode StatusCode :=
  if n < 100 ∨ 1000 ≤ n then .error .mk else .ok ⟨n⟩

/-- Digit loop of chrono scan::number: read at most fuel digits, returning the
value, the digit count and the rest. -/
def scanDigitsAcc : Nat → Nat → Nat → List Char → (Nat × Nat × List Char)
  | 0, acc, cnt, s => (acc, cnt, s)
  | _ + 1, acc, cnt, [] => (acc, cnt, [])
  | fuel + 1, acc, cnt, c :: r =>
    match char_to_digit 10 c with
    | none => (acc, cnt, c :: r)
    | some d => scanDigitsAcc fuel (acc * 10 + d) (cnt + 1) r

/-- Model of chrono scan::number(s, mn, mx): between mn and mx digits. -/
def scanNumber (mn mx : Nat) (s : List Char) : Except ChronoParseError (Nat × List Char) :=
  if s.length < mn then .error .tooShort
  else
    let (v, cnt, rest) := scanDigitsAcc mx 0 0 s
    if cnt < mn then .error .invalid
    else .ok (v, rest)

/-- Model of chrono scan::char_: one required literal character. -/
def scanChar (c : Char) (s : List Char) : Except ChronoParseError (List Char) :=
  match s with
  | [] => .error .tooShort
  | x :: r => if x = c then .ok r else .error .invalid

/-- Model of chrono scan::nanosecond: one or more digits after the decimal
point (empty input is too short, a non-digit is invalid); the first nine
digits give the nanosecond value, further digits are skipped. -/
def scanNanosecond (s : List Char) : Except ChronoParseError (Nat × List Char) :=
  match s with
  | [] => .error .tooShort
  | c :: _ =>
    if (char_to_digit 10 c).isNone then .error .invalid
    else
      let digits := s.takeWhile fun ch => (char_to_digit 10 ch).isSome
      let rest := s.dropWhile fun ch => (char_to_digit 10 ch).isSome
      let d9 := digits.take 9
      let v := d9.foldl (fun acc ch => acc * 10 + (char_to_digit 10 ch).getD 0) 0
      .ok (v * 10 ^ (9 - d9.length), rest)

/-- Model of chrono scan::timezone_offset as called for RFC 3339: the letter
Z (either case), or a sign (plus, hyphen-minus, or the Unicode minus sign,
code point 8722) followed by a two-digit hour (00 to 99), a mandatory colon,
and a two-digit minute whose first digit must be 0 to 5; minute values 60 to
99 are rejected as out of range. -/
def scanTzOffset (s : List Char) : Except ChronoParseError (Int × List Char) :=
  match s with
  | [] => .error .tooShort
  | c :: r =>
    if c = 'Z' ∨ c = 'z' then .ok (0, r)
    else if c = '+' ∨ c = '-' ∨ c.toNat = 8722 then
      match scanNumber 2 2 r with
      | .error e => .error e
      | .ok (h, r1) =>
        match scanChar ':' r1 with
        | .error e => .error e
        | .ok r2 =>
          match r2 with
          | m1 :: m2 :: r3 =>
            match char_to_digit 10 m1, char_to_digit 10 m2 with
            | some d1, some d2 =>
              if 6 ≤ d1 then .error .outOfRange
              else
                let off : Int := h * 3600 + (d1 * 10 + d2) * 60
                .ok (if c = '+' then off else -off, r3)
            | _, _ => .error .invalid
          | _ => .error .tooShort
    else .error .invalid

/-- Proleptic Gregorian leap-year rule. -/
def isLeapYear (y : Nat) : Bool :=
  y % 4 == 0 && (!(y % 100 == 0) || y % 400 == 0)

/-- Length of a month in the given year. -/
def daysInMonth (y m : Nat) : Nat :=
  if m = 2 then (if isLeapYear y then 29 else 28)
  else if m = 4 ∨ m = 6 ∨ m = 9 ∨ m = 11 then 30
  else 31

/-- Days from 1970-01-01 to the given civil date (standard civil-days
algorithm, matching the chrono calendar). -/
def daysFromCivil (y m d : Nat) : Int :=
  let yAdj : Int := if m ≤ 2 then (y : Int) - 1 else (y : Int)
  let era : Int := (if 0 ≤ yAdj then yAdj else yAdj - 399) / 400
  let yoe : Int := yAdj - era * 400
  let mp : Int := ((m : Int) + 9) % 12
  let doy : Int := (153 * mp + 2) / 5 + (d : Int) - 1
  let doe : Int := yoe * 365 + yoe / 4 - yoe / 100 + doy
  era * 146097 + doe - 719468

/-- A chrono DateTime with a fixed offset: the UTC instant in seconds since
the epoch, the subsecond nanoseconds, and the offset in seconds. -/
structure FixedDateTime where
  instantSecs : Int
  nanos : Nat
  offset : Int
deriving DecidableEq, Repr

/-- A chrono DateTime in UTC: the instant in seconds since the epoch plus
subsecond nanoseconds. -/
structure DateTimeUtc where
  secs : Int
  nanos : Nat
deriving DecidableEq, Repr

/-- Model of the From conversion DateTime of FixedOffset into DateTime of Utc:
the same instant. -/
def FixedDateTime.toUtc (d : FixedDateTime) : DateTimeUtc := ⟨d.instantSecs, d.nanos⟩

/-- Model of Parsed::to_datetime: validate the calendar components and build
the instant.  A leap second is carried in the nanosecond field. -/
def toDatetime (y mo d h mi se na : Nat) (off : Int) : Except ChronoParseError FixedDateTime :=
  if mo < 1 ∨ 12 < mo then .error .outOfRange
  else if d < 1 ∨ daysInMonth y mo < d then .error .outOfRange
  else if 23 < h then .error .outOfRange
  else if 59 < mi then .error .outOfRange
  else if 60 < se then .error .outOfRange
  else if 86400 ≤ off ∨ off ≤ -86400 then .error .outOfRange
  else
    let se2 := if se = 60 then 59 else se
    let na2 := if se = 60 then na + 1000000000 else na
    let localSecs : Int := daysFromCivil y mo d * 86400 + ((h * 3600 + mi * 60 + se2 : Nat) : Int)
    .ok ⟨localSecs - off, na2, off⟩

/-- Model of chrono DateTime::parse_from_rfc3339: date, separator letter, time,
optional fraction, offset, then end of input. -/
def parse_from_rfc3339 (s : List Char) : Except ChronoParseError FixedDateTime := do
  let (y, s) ← scanNumber 4 4 s
  let s ← scanChar '-' s
  let (mo, s) ← scanNumber 2 2 s
  let s ← scanChar '-' s
  let (d, s) ← scanNumber 2 2 s
  let s ← (match s with
    | [] => Except.error ChronoParseError.tooShort
    | c :: r =>
      if c = 'T' ∨ c = 't' ∨ c = ' ' then Except.ok r
      else Except.error ChronoParseError.invalid)
  let (h, s) ← scanNumber 2 2 s
  let s ← scanChar ':' s
  let (mi, s) ← scanNumber 2 2 s
  let s ← scanChar ':' s
  let (se, s) ← scanNumber 2 2 s
  let (na, s) ← (match s with
    | '.' :: r => scanNanosecond r
    | _ => Except.ok (0, s))
  let (off, s) ← scanTzOffset s
  match s with
  | [] => toDatetime y mo d h mi se na off
  | _ => .error .tooLong

/-- Shared shape of the four space-delimited peel functions (peel_ip,
peel_usize, peel_string, peel_status_code in src/lib.rs): find the first
space, take the remainder from there with leading whitespace trimmed, return
absent on a leading dash, otherwise run the field parser on the token before
the space.  The outer Option models the unreachable branch taken on empty
input. -/
def peelTok {α : Type} (f : List Char → Except LogEntryParseError α) (line : List Char) :
    Option (Except LogEntryParseError (Option α × List Char)) :=
  let i := firstSpaceIdx line
  let rem := trimStart (line.drop i)
  match line with
  | [] => none
  | c :: _ =>
    if c = '-' then some (.ok (none, rem))
    else
      match f (line.take i) with
      | .error e => some (.error e)
      | .ok v => some (.ok (some v, rem))

/-- Model of peel_ip from src/lib.rs. -/
def peel_ip : List Char → Option (Except LogEntryParseError (Option IpAddr × List Char)) :=
  peelTok fun tok =>
    match parse_ip_addr tok with
    | .ok ip => .ok ip
    | .error e => .error (.IpAddrParse e)

/-- Model of peel_usize from src/lib.rs. -/
def peel_usize : List Char → Option (Except LogEntryParseError (Option Nat × List Char)) :=
  peelTok fun tok =>
    match parse_usize tok with
    | .ok n => .ok n
    | .error e => .error (.SizeParse e)

/-- Model of peel_string from src/lib.rs. -/
def peel_string : List Char → Option (Except LogEntryParseError (Option (List Char) × List Char)) :=
  peelTok fun tok => (.ok tok : Except LogEntryParseError (List Char))

/-- Model of peel_status_code from src/lib.rs. -/
def peel_status_code : List Char → Option (Except LogEntryParseError (Option StatusCode × List Char)) :=
  peelTok fun tok =>
    match StatusCode.from_bytes tok with
    | .ok sc => .ok sc
    | .error e => .error (.StatusCodeParse e)

/-- Model of peel_quoted_string from src/lib.rs: a leading dash consumes one
character; otherwise the field must open with a double quote and extends to
the matching closing quote. -/
def peel_quoted_string (line : List Char) :
    Option (Except LogEntryParseError (Option (List Char) × List Char)) :=
  match line with
  | [] => some (.error .FieldNotFound)
  | c :: rest =>
    if c = '-' then some (.ok (none, trimStart rest))
    else if c = '"' then
      match findCharIdx? '"' rest with
      | none => some (.error .FieldNotFound)
      | some j => some (.ok (some (rest.take j), trimStart (rest.drop (j + 1))))
    else some (.error .FieldNotFound)

/-- Model of peel_timestamp from src/lib.rs: a leading dash consumes one
character; otherwise the field must open with a bracket, the closing bracket
is searched in the whole line, and the content between them is parsed as an
RFC 3339 timestamp and converted to UTC. -/
def peel_timestamp (line : List Char) :
    Option (Except LogEntryParseError (Option DateTimeUtc × List Char)) :=
  match line with
  | [] => some (.error .FieldNotFound)
  | c :: rest =>
    if c = '-' then some (.ok (none, trimStart rest))
    else if c = '[' then
      match findCharIdx? ']' (c :: rest) with
      | none => some (.error .FieldNotFound)
      | some j =>
        match parse_from_rfc3339 (((c :: rest).take j).drop 1) with
        | .error e => some (.error (.DateTimeParse e))
        | .ok dt => some (.ok (some dt.toUtc, trimStart ((c :: rest).drop (j + 1))))
    else some (.error .FieldNotFound)

/-- The LogEntry record of src/lib.rs.  Text fields own their characters. -/
structure LogEntry where
  host : Option IpAddr
  ident : Option (List Char)
  authuser : Option (List Char)
  time : Option DateTimeUtc
  request_line : Option (List Char)
  status_code : Option StatusCode
  object_size : Option Nat
deriving DecidableEq, Repr

/-- Model of the FromStr implementation for LogEntry: the six peel functions
run in order, the first error aborts, and the leftover after object_size is
discarded.  The outer Option models divergence of a peel function. -/
def LogEntry.from_str (s : List Char) : Option (Except LogEntryParseError LogEntry) :=
  match peel_ip s with
  | none => none
  | some (.error e) => some (.error e)
  | some (.ok (host, r1)) =>
    match peel_string r1 with
    | none => none
    | some (.error e) => some (.error e)
    | some (.ok (ident, r2)) =>
      match peel_string r2 with
      | none => none
      | some (.error e) => some (.error e)
      | some (.ok (authuser, r3)) =>
        match peel_timestamp r3 with
        | none => none
        | some (.error e) => some (.error e)
        | some (.ok (time, r4)) =>
          match peel_quoted_string r4 with
          | none => none
          | some (.error e) => some (.error e)
          | some (.ok (request_line, r5)) =>
            match peel_status_code r5 with
            | none => none
            | some (.error e) => some (.error e)
            | some (.ok (status_code, r6)) =>
              match peel_usize r6 with
              | none => none
              | some (.error e) => some (.error e)
              | some (.ok (object_size, _r7)) =>
                some (.ok ⟨host, ident, authuser, time, request_line, status_code, object_size⟩)

/-- The interchange-format view of a LogEntry: every field maps structurally
to itself except status_code, which the custom serializer of src/lib.rs turns
into a plain integer. -/
structure SerLogEntry where
  host : Option IpAddr
  ident : Option (List Char)
  authuser : Option (List Char)
  time : Option DateTimeUtc
  request_line : Option (List Char)
  status_code : Option Nat
  object_size : Option Nat
deriving DecidableEq, Repr

/-- Deserializer-side error: the integer does not fit in sixteen bits, so the
underlying Option u16 deserialization itself fails. -/
inductive DeError
  | u16OutOfRange
deriving DecidableEq, Repr

/-- Model of serialize_status_code from src/lib.rs: map the code to its
integer value. -/
def serialize_status_code (sc : Option StatusCode) : Option Nat :=
  sc.map StatusCode.as_u16

/-- Model of deserialize_status_code from src/lib.rs: deserialize an optional
sixteen-bit integer, then map it through StatusCode::from_u16, degrading an
invalid code to absent instead of an error. -/
def deserialize_status_code (v : Option Nat) : Except DeError (Option StatusCode) :=
  match v with
  | none => .ok none
  | some n =>
    if 65536 ≤ n then .error .u16OutOfRange
    else
      match StatusCode.from_u16 n with
      | .ok sc => .ok (some sc)
      | .error _ => .ok none

/-- Serialization of a whole record to the interchange format. -/
def serializeLogEntry (e : LogEntry) : SerLogEntry :=
  ⟨e.host, e.ident, e.authuser, e.time, e.request_line,
    serialize_status_code e.status_code, e.object_size⟩

/-- Deserialization of a whole record from the interchange format. -/
def deserializeLogEntry (s : SerLogEntry) : Except DeError LogEntry :=
  match deserialize_status_code s.status_code with
  | .error e => .error e
  | .ok sc => .ok ⟨s.host, s.ident, s.authuser, s.time, s.request_line, sc, s.object_size⟩

/-- Remainder trace of a successful parse: the intermediate remainders left
after each of the seven peel steps. -/
def peelRems (s : List Char) : Option (List (List Char)) :=
  match peel_ip s with
  | some (.ok (_, r1)) =>
    match peel_string r1 with
    | some (.ok (_, r2)) =>
      match peel_string r2 with
      | some (.ok (_, r3)) =>
        match peel_timestamp r3 with
        | some (.ok (_, r4)) =>
          match peel_quoted_string r4 with
          | some (.ok (_, r5)) =>
            match peel_status_code r5 with
            | some (.ok (_, r6)) =>
              match peel_usize r6 with
              | some (.ok (_, r7)) => some [r1, r2, r3, r4, r5, r6, r7]
              | _ => none
            | _ => none
          | _ => none
        | _ => none
      | _ => none
    | _ => none
  | _ => none

/-- Replace the text of field k of a parsed line by the absent marker: keep
the text the first k peel steps consumed, emit a dash and a space, and resume
with the remainder left after step k + 1. -/
def replaceField (s : List Char) (k : Nat) : Option (List Char) :=
  match peelRems s with
  | none => none
  | some rs =>
    if k < 7 then
      let rk := if k = 0 then s else rs.getD (k - 1) []
      let rk1 := rs.getD k []
      some (s.take (s.length - rk.length) ++ '-' :: ' ' :: rk1)
    else none

/-- Set field k of a record to absent. -/
def clearField (e : LogEntry) (k : Nat) : LogEntry :=
  match k with
  | 0 => { e with host := none }
  | 1 => { e with ident := none }
  | 2 => { e with authuser := none }
  | 3 => { e with time := none }
  | 4 => { e with request_line := none }
  | 5 => { e with status_code := none }
  | 6 => { e with object_size := none }
  | _ => e

/-- Whether field k of a record is present. -/
def fieldIsSome (e : LogEntry) (k : Nat) : Bool :=
  match k with
  | 0 => e.host.isSome
  | 1 => e.ident.isSome
  | 2 => e.authuser.isSome
  | 3 => e.time.isSome
  | 4 => e.request_line.isSome
  | 5 => e.status_code.isSome
  | 6 => e.object_size.isSome
  | _ => false

/-- All fields other than field k agree between two records. -/
def fieldsEqExcept (a b : LogEntry) (k : Nat) : Prop :=
  (k ≠ 0 → a.host = b.host) ∧ (k ≠ 1 → a.ident = b.ident) ∧
  (k ≠ 2 → a.authuser = b.authuser) ∧ (k ≠ 3 → a.time = b.time) ∧
  (k ≠ 4 → a.request_line = b.request_line) ∧ (k ≠ 5 → a.status_code = b.status_code) ∧
  (k ≠ 6 → a.object_size = b.object_size)

/-! Concrete example inputs used by witnesses and counterexamples. -/

/-- A valid line whose only present fields are status code and size. -/
def exLine : List Char := "- - - - - 200 5".toList

/-- The record that exLine parses to. -/
def exEntry : LogEntry := ⟨none, none, none, none, none, some ⟨200⟩, some 5⟩

/-- Trailing junk appended to exLine. -/
def exTail : List Char := "junk".toList

/-- A token containing a tab before the first space. -/
def tabLine : List Char := "a\tb c".toList

/-- A malformed IP field: every octet overflows a byte. -/
def badIpLine : List Char := "999.999.999.999".toList

/-- A timestamp field missing its closing bracket. -/
def noCloseTs : List Char := "[1996-12-19T16:39:57-08:00".toList

/-- A request-line field missing its opening quote. -/
def noQuoteLine : List Char := "GET /apache_pb.gif HTTP/1.0".toList

/-- A non-numeric token, invalid as status code and as size. -/
def nonNumTok : List Char := "abc".toList

/-- An input starting with a dash followed by more token text. -/
def dashLine : List Char := "-x rest".toList

/-- The remainder of dashLine after consuming only the dash. -/
def xRest : List Char := "x rest".toList

/-- The remainder of dashLine after consuming the whole dash token. -/
def restOnly : List Char := "rest".toList

/-- Valid RFC 3339 timestamp content. -/
def rfcContent : List Char := "1996-12-19T16:39:57-08:00".toList

/-- Timestamp content shaped like RFC 3339 but with offset minutes 99,
outside the range the offset scanner accepts. -/
def tzBadContent : List Char := "1996-12-19T16:39:57+00:99".toList

/-- A native-CLF formatted timestamp field, rejected by the parser. -/
def clfNativeLine : List Char := "[19/Dec/1996:16:39:57 -0800] x".toList

/-- Status-code token 999. -/
def tok999 : List Char := "999".toList

/-- Tail of a valid status-code field input whose head character is 2. -/
def c3tail : List Char := "00 x".toList

/-! Helper lemmas about whitespace trimming. -/

theorem trimStart_cons (c : Char) (t : List Char) :
    trimStart (c :: t) = if rustIsWhitespace c then trimStart t else c :: t := by
  simp [trimStart, List.dropWhile_cons]

theorem length_trimStart_le (l : List Char) : (trimStart l).length ≤ l.length := by
  induction l with
  | nil => simp [trimStart]
  | cons c t ih =>
    rw [trimStart_cons]
    by_cases hc : rustIsWhitespace c <;> simp [hc] <;> omega

theorem trimStart_idem (l : List Char) : trimStart (trimStart l) = trimStart l := by
  induction l with
  | nil => rfl
  | cons c t ih =>
    rw [trimStart_cons]
    by_cases hc : rustIsWhitespace c
    · simp [hc, ih]
    · simp [hc, trimStart_cons]

theorem trimStart_head_not {l : List Char} {c : Char} {t : List Char}
    (h : trimStart l = c :: t) : rustIsWhitespace c = false := by
  induction l with
  | nil => simp [trimStart] at h
  | cons d u ih =>
    rw [trimStart_cons] at h
    by_cases hd : rustIsWhitespace d
    · rw [if_pos hd] at h; exact ih h
    · rw [if_neg hd] at h
      cases h
      simpa using hd

theorem trimmed_head {r : List Char} (htr : trimStart r = r) (hne : r ≠ []) :
    ∃ c u, r = c :: u ∧ rustIsWhitespace c = false := by
  cases r with
  | nil => exact absurd rfl hne
  | cons c u => exact ⟨c, u, rfl, trimStart_head_not htr⟩

theorem trimStart_ws_append {w : List Char} (hw : ∀ b ∈ w, rustIsWhitespace b = true)
    {a : Char} (q : List Char) (ha : rustIsWhitespace a = false) :
    trimStart (w ++ a :: q) = a :: q := by
  induction w with
  | nil => simp [trimStart_cons, ha]
  | cons b u ih =>
    have hb : rustIsWhitespace b = true := hw b (by simp)
    rw [List.cons_append, trimStart_cons, if_pos hb]
    exact ih fun x hx => hw x (by simp [hx])

theorem trimStart_append_of_ne {l r : List Char} (h : trimStart l = r) (hr : r ≠ [])
    (y : List Char) : trimStart (l ++ y) = r ++ y := by
  induction l with
  | nil =>
    simp [trimStart] at h
    exact absurd h hr
  | cons c t ih =>
    rw [trimStart_cons] at h
    by_cases hc : rustIsWhitespace c
    · rw [if_pos hc] at h
      rw [List.cons_append, trimStart_cons, if_pos hc]
      exact ih h
    · rw [if_neg hc] at h
      subst h
      rw [List.cons_append, trimStart_cons, if_neg hc]

/-! Helper lemmas about the first-space index. -/

theorem fsi_cons (c : Char) (t : List Char) :
    firstSpaceIdx (c :: t) = if c = ' ' then 0 else firstSpaceIdx t + 1 := rfl

theorem fsi_le_length (l : List Char) : firstSpaceIdx l ≤ l.length := by
  induction l with
  | nil => simp [firstSpaceIdx]
  | cons c t ih =>
    rw [fsi_cons]
    by_cases hc : c = ' ' <;> simp [hc] <;> omega

theorem take_fsi_no_space (l : List Char) : ∀ b ∈ l.take (firstSpaceIdx l), b ≠ ' ' := by
  induction l with
  | nil => simp
  | cons c t ih =>
    rw [fsi_cons]
    by_cases hc : c = ' '
    · simp [hc]
    · rw [if_neg hc]
      intro b hb
      rw [List.take_cons (by omega)] at hb
      rcases List.mem_cons.mp hb with h | h
      · exact h ▸ hc
      · exact ih b (by simpa using h)

theorem drop_fsi_shape (l : List Char) :
    l.drop (firstSpaceIdx l) = [] ∨ ∃ u, l.drop (firstSpaceIdx l) = ' ' :: u := by
  induction l with
  | nil => left; rfl
  | cons c t ih =>
    rw [fsi_cons]
    by_cases hc : c = ' '
    · right; exact ⟨t, by simp [hc]⟩
    · rw [if_neg hc]
      simpa using ih

theorem fsi_append_no_space {a : List Char} (h : ∀ b ∈ a, b ≠ ' ') (b : List Char) :
    firstSpaceIdx (a ++ b) = a.length + firstSpaceIdx b := by
  induction a with
  | nil => simp
  | cons c t ih =>
    have hc : c ≠ ' ' := h c (by simp)
    rw [List.cons_append, fsi_cons, if_neg hc, ih fun x hx => h x (by simp [hx])]
    simp [List.length_cons]
    omega

theorem fsi_space_cons (t : List Char) : firstSpaceIdx (' ' :: t) = 0 := by
  simp [fsi_cons]

theorem take_fsi_append_space (x t : List Char) :
    (x ++ ' ' :: t).take (firstSpaceIdx (x ++ ' ' :: t)) = x.take (firstSpaceIdx x) := by
  induction x with
  | nil => simp [fsi_space_cons, firstSpaceIdx]
  | cons c xs ih =>
    rw [List.cons_append, fsi_cons, fsi_cons]
    by_cases hc : c = ' '
    · simp [hc]
    · rw [if_neg hc, if_neg hc, List.take_cons (by omega), List.take_cons (by omega)]
      simpa using ih

/-! Helper lemmas about character search. -/

theorem findCharIdx?_append {a : List Char} {c : Char} (h : ∀ b ∈ a, b ≠ c) (z : List Char) :
    findCharIdx? c (a ++ c :: z) = some a.length := by
  induction a with
  | nil => simp [findCharIdx?]
  | cons d t ih =>
    have hd : d ≠ c := h d (by simp)
    rw [List.cons_append]
    simp only [findCharIdx?, if_neg hd]
    rw [ih fun x hx => h x (by simp [hx])]
    rfl

theorem findCharIdx?_split {c : Char} {l : List Char} {j : Nat}
    (h : findCharIdx? c l = some j) :
    ∃ a z, l = a ++ c :: z ∧ a.length = j ∧ ∀ b ∈ a, b ≠ c := by
  induction l generalizing j with
  | nil => simp [findCharIdx?] at h
  | cons d t ih =>
    by_cases hd : d = c
    · subst hd
      simp [findCharIdx?] at h
      exact ⟨[], t, rfl, h, by simp⟩
    · simp only [findCharIdx?, if_neg hd] at h
      cases hj : findCharIdx? c t with
      | none => rw [hj] at h; simp at h
      | some j0 =>
        rw [hj] at h
        simp at h
        obtain ⟨a, z, rfl, hlen, hfree⟩ := ih hj
        refine ⟨d :: a, z, rfl, ?_, ?_⟩
        · simp [hlen, ← h]
        · intro b hb
          rcases List.mem_cons.mp hb with rfl | hb
          · exact hd
          · exact hfree b hb

/-! Helper lemmas about the shared peel shapes. -/

theorem ws_space : rustIsWhitespace ' ' = true := by decide

theorem ws_dash : rustIsWhitespace '-' = false := by decide

theorem not_space_of_not_ws {c : Char} (h : rustIsWhitespace c = false) : c ≠ ' ' := by
  intro hc
  rw [hc, ws_space] at h
  simp at h

theorem peelTok_cons {α : Type} (f : List Char → Except LogEntryParseError α)
    (c : Char) (t : List Char) :
    peelTok f (c :: t) =
      (if c = '-' then
        some (.ok (none, trimStart ((c :: t).drop (firstSpaceIdx (c :: t)))))
      else
        match f ((c :: t).take (firstSpaceIdx (c :: t))) with
        | .error e => some (.error e)
        | .ok v => some (.ok (some v, trimStart ((c :: t).drop (firstSpaceIdx (c :: t)))))) := rfl

theorem peelTok_of_head {α : Type} (f : List Char → Except LogEntryParseError α)
    {y : List Char} {c : Char} (hhead : y.head? = some c) :
    peelTok f y =
      (if c = '-' then
        some (.ok (none, trimStart (y.drop (firstSpaceIdx y))))
      else
        match f (y.take (firstSpaceIdx y)) with
        | .error e => some (.error e)
        | .ok v => some (.ok (some v, trimStart (y.drop (firstSpaceIdx y))))) := by
  cases y with
  | nil => simp at hhead
  | cons d t =>
    simp only [List.head?_cons, Option.some.injEq] at hhead
    subst hhead
    exact peelTok_cons f d t

theorem peelTok_ok_inv {α : Type} {f : List Char → Except LogEntryParseError α}
    {x : List Char} {v : Option α} {r : List Char}
    (h : peelTok f x = some (.ok (v, r))) :
    x ≠ [] ∧ r = trimStart (x.drop (firstSpaceIdx x)) ∧
      ((∃ t, x = '-' :: t ∧ v = none) ∨
        (∃ c t, x = c :: t ∧ c ≠ '-' ∧
          ∃ w, f (x.take (firstSpaceIdx x)) = .ok w ∧ v = some w)) := by
  cases x with
  | nil => simp [peelTok] at h
  | cons c t =>
    rw [peelTok_cons] at h
    by_cases hc : c = '-'
    · rw [if_pos hc] at h
      simp only [Option.some.injEq, Except.ok.injEq, Prod.mk.injEq] at h
      exact ⟨by simp, h.2.symm, .inl ⟨t, by rw [hc], h.1.symm⟩⟩
    · rw [if_neg hc] at h
      cases hf : f ((c :: t).take (firstSpaceIdx (c :: t))) with
      | error e =>
        rw [hf] at h
        simp at h
      | ok w =>
        rw [hf] at h
        simp only [Option.some.injEq, Except.ok.injEq, Prod.mk.injEq] at h
        exact ⟨by simp, h.2.symm, .inr ⟨c, t, rfl, hc, ⟨w, hf ▸ rfl, h.1.symm⟩⟩⟩

theorem peelTok_rem_trimmed {α : Type} {f : List Char → Except LogEntryParseError α}
    {x : List Char} {v : Option α} {r : List Char}
    (h : peelTok f x = some (.ok (v, r))) : trimStart r = r := by
  obtain ⟨-, hrem, -⟩ := peelTok_ok_inv h
  rw [hrem]
  exact trimStart_idem _

theorem peelTok_consumes {α : Type} {f : List Char → Except LogEntryParseError α}
    {c : Char} {t : List Char} {v : Option α} {r : List Char}
    (h : peelTok f (c :: t) = some (.ok (v, r))) (hc : c ≠ ' ') :
    r.length < (c :: t).length := by
  obtain ⟨-, hrem, -⟩ := peelTok_ok_inv h
  rw [fsi_cons, if_neg hc] at hrem
  have h1 : (c :: t).drop (firstSpaceIdx t + 1) = t.drop (firstSpaceIdx t) := rfl
  rw [h1] at hrem
  have h2 := length_trimStart_le (t.drop (firstSpaceIdx t))
  have h3 : (t.drop (firstSpaceIdx t)).length ≤ t.length := by
    simp
  rw [hrem]
  simp only [List.length_cons]
  omega

theorem take_chunk_of_append (p r : List Char) :
    (p ++ r).take ((p ++ r).length - r.length) = p := by
  rw [List.length_append, Nat.add_sub_cancel]
  exact List.take_left _ _

theorem peelTok_build {α : Type} (f : List Char → Except LogEntryParseError α)
    (tok w : List Char) (a : Char) (q : List Char)
    (htokns : ∀ b ∈ tok, b ≠ ' ')
    (hwhead : ∃ u, w = ' ' :: u)
    (hwall : ∀ b ∈ w, rustIsWhitespace b = true)
    (ha : rustIsWhitespace a = false) :
    peelTok f (tok ++ (w ++ a :: q)) =
      (if tok.head?.getD ' ' = '-' then some (.ok (none, a :: q))
       else
        match f tok with
        | .error e => some (.error e)
        | .ok v => some (.ok (some v, a :: q))) := by
  obtain ⟨u0, rfl⟩ := hwhead
  have hfsi : firstSpaceIdx (tok ++ ((' ' :: u0) ++ a :: q)) = tok.length := by
    rw [fsi_append_no_space htokns, List.cons_append, fsi_space_cons]
    omega
  have htake : (tok ++ ((' ' :: u0) ++ a :: q)).take
      (firstSpaceIdx (tok ++ ((' ' :: u0) ++ a :: q))) = tok := by
    rw [hfsi]
    exact List.take_left _ _
  have hdrop : (tok ++ ((' ' :: u0) ++ a :: q)).drop
      (firstSpaceIdx (tok ++ ((' ' :: u0) ++ a :: q))) = (' ' :: u0) ++ a :: q := by
    rw [hfsi]
    exact List.drop_left _ _
  have htrim : trimStart ((' ' :: u0) ++ a :: q) = a :: q :=
    trimStart_ws_append hwall q ha
  cases tok with
  | nil =>
    have hy : (([] : List Char) ++ ((' ' :: u0) ++ a :: q)).head? = some ' ' := by simp
    rw [peelTok_of_head f hy, if_neg (by decide), htake, hdrop, htrim]
    simp
  | cons c tok2 =>
    have hy : ((c :: tok2) ++ ((' ' :: u0) ++ a :: q)).head? = some c := by simp
    rw [peelTok_of_head f hy, htake, hdrop, htrim]
    simp only [List.head?_cons, Option.getD_some]

theorem peelTok_chunk {α : Type} {f : List Char → Except LogEntryParseError α}
    {x : List Char} {v : Option α} {r : List Char}
    (h : peelTok f x = some (.ok (v, r))) (hr : r ≠ []) :
    x.take (x.length - r.length) ++ r = x ∧
      ∀ a q, rustIsWhitespace a = false →
        peelTok f (x.take (x.length - r.length) ++ a :: q) = some (.ok (v, a :: q)) := by
  obtain ⟨hx, hrem, hbr⟩ := peelTok_ok_inv h
  rcases drop_fsi_shape x with hre | ⟨u, hre⟩
  · rw [hre] at hrem
    simp [trimStart] at hrem
    exact absurd hrem hr
  have hwr : (x.drop (firstSpaceIdx x)).takeWhile rustIsWhitespace ++ r =
      x.drop (firstSpaceIdx x) := by
    rw [hrem]
    exact List.takeWhile_append_dropWhile _ _
  obtain ⟨tok, hTok⟩ : ∃ tok, x.take (firstSpaceIdx x) = tok := ⟨_, rfl⟩
  obtain ⟨w, hW⟩ : ∃ w, (x.drop (firstSpaceIdx x)).takeWhile rustIsWhitespace = w := ⟨_, rfl⟩
  rw [hW] at hwr
  have hxdec : x = (tok ++ w) ++ r := by
    rw [List.append_assoc, hwr, ← hTok, List.take_append_drop]
  have htokns : ∀ b ∈ tok, b ≠ ' ' := by
    rw [← hTok]
    exact take_fsi_no_space x
  have hwhead : ∃ u2, w = ' ' :: u2 := by
    rw [← hW, hre]
    exact ⟨u.takeWhile rustIsWhitespace, by rw [List.takeWhile_cons, if_pos ws_space]⟩
  have hwall : ∀ b ∈ w, rustIsWhitespace b = true := by
    rw [← hW]
    exact fun b hb => List.mem_takeWhile_imp hb
  constructor
  · rw [hxdec, take_chunk_of_append]
  intro a q ha
  rw [hxdec, take_chunk_of_append, List.append_assoc,
    peelTok_build f tok w a q htokns hwhead hwall ha]
  rcases hbr with ⟨t, hxeq, hv⟩ | ⟨c, t, hxeq, hcne, w0, hfok, hv⟩
  · have htokd : tok.head? = some '-' := by
      rw [← hTok, hxeq, fsi_cons, if_neg (by decide), List.take_cons (Nat.succ_pos _)]
      simp
    rw [if_pos (by rw [htokd]; rfl), hv]
  · have hne : ¬(tok.head?.getD ' ' = '-') := by
      by_cases hcs : c = ' '
      · have htok0 : tok = [] := by
          rw [← hTok, hxeq, fsi_cons, if_pos hcs]
          rfl
        rw [htok0]
        decide
      · have htokc : tok.head? = some c := by
          rw [← hTok, hxeq, fsi_cons, if_neg hcs, List.take_cons (Nat.succ_pos _)]
          simp
        rw [htokc]
        simpa using hcne
    rw [hTok] at hfok
    rw [if_neg hne, hfok, hv]

theorem peelTok_dash {α : Type} (f : List Char → Except LogEntryParseError α)
    {r : List Char} (hrr : trimStart r = r) :
    peelTok f ('-' :: ' ' :: r) = some (.ok (none, r)) := by
  rw [peelTok_cons, if_pos rfl, fsi_cons, if_neg (by decide), fsi_space_cons]
  have hdrop : ('-' :: ' ' :: r).drop (0 + 1) = ' ' :: r := rfl
  rw [hdrop, trimStart_cons, if_pos ws_space, hrr]

theorem peelTok_append_space {α : Type} {f : List Char → Except LogEntryParseError α}
    {x : List Char} {v : Option α} {r : List Char}
    (h : peelTok f x = some (.ok (v, r))) (t : List Char) :
    ∃ r2, peelTok f (x ++ ' ' :: t) = some (.ok (v, r2)) := by
  obtain ⟨hx, hrem, hbr⟩ := peelTok_ok_inv h
  cases x with
  | nil => exact absurd rfl hx
  | cons c xs =>
    have hy : ((c :: xs) ++ ' ' :: t).head? = some c := by simp
    rw [peelTok_of_head f hy]
    rcases hbr with ⟨t0, hxeq, hv⟩ | ⟨c0, t0, hxeq, hcne, w0, hfok, hv⟩
    · have hc : c = '-' := by
        injection hxeq with h1 h2
      rw [if_pos hc, hv]
      exact ⟨_, rfl⟩
    · have hc : c = c0 := by
        injection hxeq with h1 h2
      rw [if_neg (hc ▸ hcne), take_fsi_append_space (c :: xs) t, hfok, hv]
      exact ⟨_, rfl⟩

theorem peelTok_nil {α : Type} (f : List Char → Except LogEntryParseError α) :
    peelTok f [] = none := rfl

theorem peel_quoted_cons (c : Char) (rest : List Char) :
    peel_quoted_string (c :: rest) =
      (if c = '-' then some (.ok (none, trimStart rest))
       else if c = '"' then
        match findCharIdx? '"' rest with
        | none => some (.error .FieldNotFound)
        | some j => some (.ok (some (rest.take j), trimStart (rest.drop (j + 1))))
       else some (.error .FieldNotFound)) := rfl

theorem peel_timestamp_cons (c : Char) (rest : List Char) :
    peel_timestamp (c :: rest) =
      (if c = '-' then some (.ok (none, trimStart rest))
       else if c = '[' then
        match findCharIdx? ']' (c :: rest) with
        | none => some (.error .FieldNotFound)
        | some j =>
          match parse_from_rfc3339 (((c :: rest).take j).drop 1) with
          | .error e => some (.error (.DateTimeParse e))
          | .ok dt => some (.ok (some dt.toUtc, trimStart ((c :: rest).drop (j + 1))))
       else some (.error .FieldNotFound)) := rfl

theorem peel_quoted_ok_inv {x : List Char} {v : Option (List Char)} {r : List Char}
    (h : peel_quoted_string x = some (.ok (v, r))) :
    (∃ t, x = '-' :: t ∧ v = none ∧ r = trimStart t) ∨
    (∃ content z, x = '"' :: (content ++ '"' :: z) ∧ (∀ b ∈ content, b ≠ '"') ∧
      v = some content ∧ r = trimStart z) := by
  cases x with
  | nil => simp [peel_quoted_string] at h
  | cons c rest =>
    rw [peel_quoted_cons] at h
    by_cases hc : c = '-'
    · rw [if_pos hc] at h
      simp only [Option.some.injEq, Except.ok.injEq, Prod.mk.injEq] at h
      exact .inl ⟨rest, by rw [hc], h.1.symm, h.2.symm⟩
    · rw [if_neg hc] at h
      by_cases hq : c = '"'
      · rw [if_pos hq] at h
        cases hfind : findCharIdx? '"' rest with
        | none =>
          rw [hfind] at h
          simp at h
        | some j =>
          rw [hfind] at h
          simp only [Option.some.injEq, Except.ok.injEq, Prod.mk.injEq] at h
          obtain ⟨content, z, hz, hlen, hfree⟩ := findCharIdx?_split hfind
          refine .inr ⟨content, z, by rw [hq, hz], hfree, ?_, ?_⟩
          · rw [← h.1, hz, ← hlen, List.take_left]
          · rw [← h.2, hz]
            congr 1
            rw [List.append_cons]
            exact List.drop_left' (by simp [hlen])
      · rw [if_neg hq] at h
        simp at h

theorem peel_timestamp_ok_inv {x : List Char} {v : Option DateTimeUtc} {r : List Char}
    (h : peel_timestamp x = some (.ok (v, r))) :
    (∃ t, x = '-' :: t ∧ v = none ∧ r = trimStart t) ∨
    (∃ content z dt, x = '[' :: (content ++ ']' :: z) ∧ (∀ b ∈ content, b ≠ ']') ∧
      parse_from_rfc3339 content = .ok dt ∧ v = some dt.toUtc ∧ r = trimStart z) := by
  cases x with
  | nil => simp [peel_timestamp] at h
  | cons c rest =>
    rw [peel_timestamp_cons] at h
    by_cases hc : c = '-'
    · rw [if_pos hc] at h
      simp only [Option.some.injEq, Except.ok.injEq, Prod.mk.injEq] at h
      exact .inl ⟨rest, by rw [hc], h.1.symm, h.2.symm⟩
    · rw [if_neg hc] at h
      by_cases hb : c = '['
      · rw [if_pos hb] at h
        cases hfind : findCharIdx? ']' (c :: rest) with
        | none =>
          rw [hfind] at h
          simp at h
        | some j =>
          rw [hfind] at h
          obtain ⟨A, Z, hAZ, hlen, hfree⟩ := findCharIdx?_split hfind
          cases A with
          | nil =>
            rw [hb] at hAZ
            simp at hAZ
          | cons a0 A2 =>
            rw [List.cons_append] at hAZ
            have ha0 : a0 = c := by
              injection hAZ with h1 h2
              exact h1.symm
            have hrest : rest = A2 ++ ']' :: Z := by
              injection hAZ with h1 h2
            have hxdec : c :: rest = (c :: A2) ++ ']' :: Z := by
              rw [hrest, List.cons_append]
            have htake : ((c :: rest).take j).drop 1 = A2 := by
              rw [hxdec, List.take_left' (by simpa [ha0] using hlen)]
              rfl
            have hdrop : (c :: rest).drop (j + 1) = Z := by
              rw [hxdec, List.append_cons]
              exact List.drop_left' (by simp [ha0] at hlen; simp; omega)
            replace h : (match parse_from_rfc3339 (((c :: rest).take j).drop 1) with
                | Except.error e => some (Except.error (LogEntryParseError.DateTimeParse e))
                | Except.ok dt =>
                  some (Except.ok (some dt.toUtc, trimStart ((c :: rest).drop (j + 1))))) =
                some (Except.ok (v, r)) := h
            rw [htake] at h
            cases hdt : parse_from_rfc3339 A2 with
            | error e =>
              rw [hdt] at h
              simp at h
            | ok dt =>
              rw [hdt] at h
              simp only [Option.some.injEq, Except.ok.injEq, Prod.mk.injEq] at h
              refine .inr ⟨A2, Z, dt, by rw [hb, ← hrest], ?_, hdt, h.1.symm, ?_⟩
              · intro b hbm
                exact hfree b (by simp [hbm])
              · rw [← h.2, hdrop]
      · rw [if_neg hb] at h
        simp at h

theorem peel_quoted_build_dash (w : List Char) (a : Char) (q : List Char)
    (hwall : ∀ b ∈ w, rustIsWhitespace b = true) (ha : rustIsWhitespace a = false) :
    peel_quoted_string ('-' :: (w ++ a :: q)) = some (.ok (none, a :: q)) := by
  rw [peel_quoted_cons, if_pos rfl, trimStart_ws_append hwall q ha]

theorem peel_timestamp_build_dash (w : List Char) (a : Char) (q : List Char)
    (hwall : ∀ b ∈ w, rustIsWhitespace b = true) (ha : rustIsWhitespace a = false) :
    peel_timestamp ('-' :: (w ++ a :: q)) = some (.ok (none, a :: q)) := by
  rw [peel_timestamp_cons, if_pos rfl, trimStart_ws_append hwall q ha]

theorem peel_quoted_build_quote (content w : List Char) (a : Char) (q : List Char)
    (hfree : ∀ b ∈ content, b ≠ '"') (hwall : ∀ b ∈ w, rustIsWhitespace b = true)
    (ha : rustIsWhitespace a = false) :
    peel_quoted_string ('"' :: (content ++ '"' :: (w ++ a :: q))) =
      some (.ok (some content, a :: q)) := by
  have hfind : findCharIdx? '"' (content ++ '"' :: (w ++ a :: q)) = some content.length :=
    findCharIdx?_append hfree _
  have htake : (content ++ '"' :: (w ++ a :: q)).take content.length = content :=
    List.take_left' rfl
  have hdrop : (content ++ '"' :: (w ++ a :: q)).drop (content.length + 1) = w ++ a :: q := by
    rw [List.append_cons]
    exact List.drop_left' (by simp)
  rw [peel_quoted_cons, if_neg (by decide), if_pos rfl, hfind]
  simp [htake, hdrop, trimStart_ws_append hwall q ha]

theorem peel_timestamp_build_ok (content w : List Char) (a : Char) (q : List Char)
    (dt : FixedDateTime)
    (hfree : ∀ b ∈ content, b ≠ ']') (hdt : parse_from_rfc3339 content = .ok dt)
    (hwall : ∀ b ∈ w, rustIsWhitespace b = true) (ha : rustIsWhitespace a = false) :
    peel_timestamp ('[' :: (content ++ ']' :: (w ++ a :: q))) =
      some (.ok (some dt.toUtc, a :: q)) := by
  have hfree2 : ∀ b ∈ '[' :: content, b ≠ ']' := by
    intro b hbm
    rcases List.mem_cons.mp hbm with rfl | hbm2
    · decide
    · exact hfree b hbm2
  have hfind : findCharIdx? ']' ('[' :: (content ++ ']' :: (w ++ a :: q))) =
      some (content.length + 1) := by
    have := findCharIdx?_append hfree2 (w ++ a :: q)
    simpa using this
  have htake : (('[' :: (content ++ ']' :: (w ++ a :: q))).take (content.length + 1)).drop 1 =
      content := by
    have h1 : ('[' :: (content ++ ']' :: (w ++ a :: q))).take (content.length + 1) =
        '[' :: content := by
      have := @List.take_left' Char ('[' :: content) (']' :: (w ++ a :: q))
        (content.length + 1) (by simp)
      simpa using this
    rw [h1]
    rfl
  have hdrop : ('[' :: (content ++ ']' :: (w ++ a :: q))).drop (content.length + 1 + 1) =
      w ++ a :: q := by
    have := @List.drop_left' Char ('[' :: content ++ [']']) (w ++ a :: q)
      (content.length + 1 + 1) (by simp)
    simpa using this
  rw [peel_timestamp_cons, if_neg (by decide), if_pos rfl, hfind]
  simp [htake, hdt, hdrop, trimStart_ws_append hwall q ha]

theorem peel_quoted_chunk {x : List Char} {v : Option (List Char)} {r : List Char}
    (h : peel_quoted_string x = some (.ok (v, r))) (hr : r ≠ []) :
    x.take (x.length - r.length) ++ r = x ∧
      ∀ a q, rustIsWhitespace a = false →
        peel_quoted_string (x.take (x.length - r.length) ++ a :: q) = some (.ok (v, a :: q)) := by
  rcases peel_quoted_ok_inv h with ⟨t, rfl, rfl, hrt⟩ | ⟨content, z, rfl, hfree, rfl, hrt⟩
  · subst hrt
    obtain ⟨w, hW⟩ : ∃ w, t.takeWhile rustIsWhitespace = w := ⟨_, rfl⟩
    have hwr : w ++ trimStart t = t := by
      rw [← hW]
      exact List.takeWhile_append_dropWhile _ _
    have hwall : ∀ b ∈ w, rustIsWhitespace b = true := by
      rw [← hW]
      exact fun b hb => List.mem_takeWhile_imp hb
    have hxdec : '-' :: t = ('-' :: w) ++ trimStart t := by
      rw [List.cons_append, hwr]
    constructor
    · rw [hxdec, take_chunk_of_append]
    · intro a q ha
      rw [hxdec, take_chunk_of_append, List.cons_append]
      exact peel_quoted_build_dash w a q hwall ha
  · subst hrt
    obtain ⟨w, hW⟩ : ∃ w, z.takeWhile rustIsWhitespace = w := ⟨_, rfl⟩
    have hwr : w ++ trimStart z = z := by
      rw [← hW]
      exact List.takeWhile_append_dropWhile _ _
    have hwall : ∀ b ∈ w, rustIsWhitespace b = true := by
      rw [← hW]
      exact fun b hb => List.mem_takeWhile_imp hb
    have hxdec : '"' :: (content ++ '"' :: z) =
        ('"' :: (content ++ '"' :: w)) ++ trimStart z := by
      rw [List.cons_append, List.append_assoc, List.cons_append, hwr]
    constructor
    · rw [hxdec, take_chunk_of_append]
    · intro a q ha
      rw [hxdec, take_chunk_of_append]
      have hb := peel_quoted_build_quote content w a q hfree hwall ha
      rw [List.cons_append, List.append_assoc, List.cons_append]
      exact hb

theorem peel_timestamp_chunk {x : List Char} {v : Option DateTimeUtc} {r : List Char}
    (h : peel_timestamp x = some (.ok (v, r))) (hr : r ≠ []) :
    x.take (x.length - r.length) ++ r = x ∧
      ∀ a q, rustIsWhitespace a = false →
        peel_timestamp (x.take (x.length - r.length) ++ a :: q) = some (.ok (v, a :: q)) := by
  rcases peel_timestamp_ok_inv h with ⟨t, rfl, rfl, hrt⟩ |
    ⟨content, z, dt, rfl, hfree, hdt, rfl, hrt⟩
  · subst hrt
    obtain ⟨w, hW⟩ : ∃ w, t.takeWhile rustIsWhitespace = w := ⟨_, rfl⟩
    have hwr : w ++ trimStart t = t := by
      rw [← hW]
      exact List.takeWhile_append_dropWhile _ _
    have hwall : ∀ b ∈ w, rustIsWhitespace b = true := by
      rw [← hW]
      exact fun b hb => List.mem_takeWhile_imp hb
    have hxdec : '-' :: t = ('-' :: w) ++ trimStart t := by
      rw [List.cons_append, hwr]
    constructor
    · rw [hxdec, take_chunk_of_append]
    · intro a q ha
      rw [hxdec, take_chunk_of_append, List.cons_append]
      exact peel_timestamp_build_dash w a q hwall ha
  · subst hrt
    obtain ⟨w, hW⟩ : ∃ w, z.takeWhile rustIsWhitespace = w := ⟨_, rfl⟩
    have hwr : w ++ trimStart z = z := by
      rw [← hW]
      exact List.takeWhile_append_dropWhile _ _
    have hwall : ∀ b ∈ w, rustIsWhitespace b = true := by
      rw [← hW]
      exact fun b hb => List.mem_takeWhile_imp hb
    have hxdec : '[' :: (content ++ ']' :: z) =
        ('[' :: (content ++ ']' :: w)) ++ trimStart z := by
      rw [List.cons_append, List.append_assoc, List.cons_append, hwr]
    constructor
    · rw [hxdec, take_chunk_of_append]
    · intro a q ha
      rw [hxdec, take_chunk_of_append]
      have hb := peel_timestamp_build_ok content w a q dt hfree hdt hwall ha
      rw [List.cons_append, List.append_assoc, List.cons_append]
      exact hb

theorem peel_quoted_dash {r : List Char} (hrr : trimStart r = r) :
    peel_quoted_string ('-' :: ' ' :: r) = some (.ok (none, r)) := by
  rw [peel_quoted_cons, if_pos rfl, trimStart_cons, if_pos ws_space, hrr]

theorem peel_timestamp_dash {r : List Char} (hrr : trimStart r = r) :
    peel_timestamp ('-' :: ' ' :: r) = some (.ok (none, r)) := by
  rw [peel_timestamp_cons, if_pos rfl, trimStart_cons, if_pos ws_space, hrr]

theorem peel_quoted_rem_trimmed {x : List Char} {v : Option (List Char)} {r : List Char}
    (h : peel_quoted_string x = some (.ok (v, r))) : trimStart r = r := by
  rcases peel_quoted_ok_inv h with ⟨t, -, -, rfl⟩ | ⟨content, z, -, -, -, rfl⟩ <;>
    exact trimStart_idem _

theorem peel_timestamp_rem_trimmed {x : List Char} {v : Option DateTimeUtc} {r : List Char}
    (h : peel_timestamp x = some (.ok (v, r))) : trimStart r = r := by
  rcases peel_timestamp_ok_inv h with ⟨t, -, -, rfl⟩ | ⟨content, z, dt, -, -, -, -, rfl⟩ <;>
    exact trimStart_idem _

theorem peel_quoted_consumes {x : List Char} {v : Option (List Char)} {r : List Char}
    (h : peel_quoted_string x = some (.ok (v, r))) : r.length < x.length := by
  rcases peel_quoted_ok_inv h with ⟨t, rfl, -, rfl⟩ | ⟨content, z, rfl, -, -, rfl⟩
  · have := length_trimStart_le t
    simp only [List.length_cons]
    omega
  · have := length_trimStart_le z
    simp [List.length_append]
    omega

theorem peel_timestamp_consumes {x : List Char} {v : Option DateTimeUtc} {r : List Char}
    (h : peel_timestamp x = some (.ok (v, r))) : r.length < x.length := by
  rcases peel_timestamp_ok_inv h with ⟨t, rfl, -, rfl⟩ | ⟨content, z, dt, rfl, -, -, -, rfl⟩
  · have := length_trimStart_le t
    simp only [List.length_cons]
    omega
  · have := length_trimStart_le z
    simp [List.length_append]
    omega

theorem peel_ip_eq (x : List Char) :
    peel_ip x = peelTok (fun tok =>
      match parse_ip_addr tok with
      | .ok ip => .ok ip
      | .error e => .error (.IpAddrParse e)) x := rfl

theorem peel_usize_eq (x : List Char) :
    peel_usize x = peelTok (fun tok =>
      match parse_usize tok with
      | .ok n => .ok n
      | .error e => .error (.SizeParse e)) x := rfl

theorem peel_string_eq (x : List Char) :
    peel_string x = peelTok (fun tok => (.ok tok : Except LogEntryParseError (List Char))) x := rfl

theorem peel_status_code_eq (x : List Char) :
    peel_status_code x = peelTok (fun tok =>
      match StatusCode.from_bytes tok with
      | .ok sc => .ok sc
      | .error e => .error (.StatusCodeParse e)) x := rfl

theorem peel_quoted_ok_ne_nil {x : List Char} {v : Option (List Char)} {r : List Char}
    (h : peel_quoted_string x = some (.ok (v, r))) : x ≠ [] := by
  intro hx
  subst hx
  simp [peel_quoted_string] at h

theorem peel_timestamp_ok_ne_nil {x : List Char} {v : Option DateTimeUtc} {r : List Char}
    (h : peel_timestamp x = some (.ok (v, r))) : x ≠ [] := by
  intro hx
  subst hx
  simp [peel_timestamp] at h

theorem from_str_inv {s : List Char} {e : LogEntry}
    (h : LogEntry.from_str s = some (.ok e)) :
    ∃ r1 r2 r3 r4 r5 r6 r7,
      peel_ip s = some (.ok (e.host, r1)) ∧
      peel_string r1 = some (.ok (e.ident, r2)) ∧
      peel_string r2 = some (.ok (e.authuser, r3)) ∧
      peel_timestamp r3 = some (.ok (e.time, r4)) ∧
      peel_quoted_string r4 = some (.ok (e.request_line, r5)) ∧
      peel_status_code r5 = some (.ok (e.status_code, r6)) ∧
      peel_usize r6 = some (.ok (e.object_size, r7)) := by
  unfold LogEntry.from_str at h
  split at h
  · exact absurd h (by simp)
  · exact absurd h (by simp)
  · rename_i host1 r1 h1
    split at h
    · exact absurd h (by simp)
    · exact absurd h (by simp)
    · rename_i ident1 r2 h2
      split at h
      · exact absurd h (by simp)
      · exact absurd h (by simp)
      · rename_i auth1 r3 h3
        split at h
        · exact absurd h (by simp)
        · exact absurd h (by simp)
        · rename_i time1 r4 h4
          split at h
          · exact absurd h (by simp)
          · exact absurd h (by simp)
          · rename_i req1 r5 h5
            split at h
            · exact absurd h (by simp)
            · exact absurd h (by simp)
            · rename_i sc1 r6 h6
              split at h
              · exact absurd h (by simp)
              · exact absurd h (by simp)
              · rename_i size1 r7 h7
                simp only [Option.some.injEq, Except.ok.injEq] at h
                subst h
                exact ⟨r1, r2, r3, r4, r5, r6, r7, h1, h2, h3, h4, h5, h6, h7⟩

theorem from_str_build {s r1 r2 r3 r4 r5 r6 r7 : List Char}
    {host : Option IpAddr} {ident authuser : Option (List Char)} {time : Option DateTimeUtc}
    {request_line : Option (List Char)} {status_code : Option StatusCode}
    {object_size : Option Nat}
    (h1 : peel_ip s = some (.ok (host, r1)))
    (h2 : peel_string r1 = some (.ok (ident, r2)))
    (h3 : peel_string r2 = some (.ok (authuser, r3)))
    (h4 : peel_timestamp r3 = some (.ok (time, r4)))
    (h5 : peel_quoted_string r4 = some (.ok (request_line, r5)))
    (h6 : peel_status_code r5 = some (.ok (status_code, r6)))
    (h7 : peel_usize r6 = some (.ok (object_size, r7))) :
    LogEntry.from_str s =
      some (.ok ⟨host, ident, authuser, time, request_line, status_code, object_size⟩) := by
  unfold LogEntry.from_str
  rw [h1]
  dsimp only
  rw [h2]
  dsimp only
  rw [h3]
  dsimp only
  rw [h4]
  dsimp only
  rw [h5]
  dsimp only
  rw [h6]
  dsimp only
  rw [h7]

theorem peelRems_build {s r1 r2 r3 r4 r5 r6 r7 : List Char}
    {host : Option IpAddr} {ident authuser : Option (List Char)} {time : Option DateTimeUtc}
    {request_line : Option (List Char)} {status_code : Option StatusCode}
    {object_size : Option Nat}
    (h1 : peel_ip s = some (.ok (host, r1)))
    (h2 : peel_string r1 = some (.ok (ident, r2)))
    (h3 : peel_string r2 = some (.ok (authuser, r3)))
    (h4 : peel_timestamp r3 = some (.ok (time, r4)))
    (h5 : peel_quoted_string r4 = some (.ok (request_line, r5)))
    (h6 : peel_status_code r5 = some (.ok (status_code, r6)))
    (h7 : peel_usize r6 = some (.ok (object_size, r7))) :
    peelRems s = some [r1, r2, r3, r4, r5, r6, r7] := by
  unfold peelRems
  rw [h1]
  dsimp only
  rw [h2]
  dsimp only
  rw [h3]
  dsimp only
  rw [h4]
  dsimp only
  rw [h5]
  dsimp only
  rw [h6]
  dsimp only
  rw [h7]

theorem from_bytes_range {tok : List Char} {sc : StatusCode}
    (h : StatusCode.from_bytes tok = .ok sc) : 100 ≤ sc.code ∧ sc.code ≤ 999 := by
  cases tok with
  | nil => simp [StatusCode.from_bytes] at h
  | cons a t1 =>
  cases t1 with
  | nil => simp [StatusCode.from_bytes] at h
  | cons b t2 =>
  cases t2 with
  | nil => simp [StatusCode.from_bytes] at h
  | cons c t3 =>
  cases t3 with
  | cons d t4 => simp [StatusCode.from_bytes] at h
  | nil =>
  simp only [StatusCode.from_bytes] at h
  by_cases hcond : byteWrapSub48 a = 0 ∨ 9 < byteWrapSub48 a ∨ 9 < byteWrapSub48 b ∨
      9 < byteWrapSub48 c
  · rw [if_pos hcond] at h
    simp at h
  · rw [if_neg hcond] at h
    simp only [Except.ok.injEq] at h
    subst h
    push_neg at hcond
    simp only [StatusCode.code]
    omega

theorem peel_status_range {x : List Char} {osc : Option StatusCode} {r : List Char}
    (h : peel_status_code x = some (.ok (osc, r))) {sc : StatusCode} (hsc : osc = some sc) :
    100 ≤ sc.code ∧ sc.code ≤ 999 := by
  rw [peel_status_code_eq] at h
  obtain ⟨-, -, hbr⟩ := peelTok_ok_inv h
  rcases hbr with ⟨t, hxeq, hv⟩ | ⟨c, t, hxeq, hcne, w0, hfok, hv⟩
  · rw [hv] at hsc
    simp at hsc
  · rw [hv] at hsc
    simp only [Option.some.injEq] at hsc
    subst hsc
    cases hfb : StatusCode.from_bytes (x.take (firstSpaceIdx x)) with
    | error e2 =>
      rw [hfb] at hfok
      simp at hfok
    | ok sc2 =>
      rw [hfb] at hfok
      simp only [Except.ok.injEq] at hfok
      subst hfok
      exact from_bytes_range hfb

theorem peelTok_cons_ok {α : Type} {f : List Char → Except LogEntryParseError α}
    (c : Char) (t : List Char) (hc : c ≠ '-') {w : α}
    (hf : f ((c :: t).take (firstSpaceIdx (c :: t))) = .ok w) :
    peelTok f (c :: t) =
      some (.ok (some w, trimStart ((c :: t).drop (firstSpaceIdx (c :: t))))) := by
  rw [peelTok_cons, if_neg hc, hf]

theorem peelTok_cons_err {α : Type} {f : List Char → Except LogEntryParseError α}
    (c : Char) (t : List Char) (hc : c ≠ '-') {err : LogEntryParseError}
    (hf : f ((c :: t).take (firstSpaceIdx (c :: t))) = .error err) :
    peelTok f (c :: t) = some (.error err) := by
  rw [peelTok_cons, if_neg hc, hf]

/-! The claims. -/

/-- Claim C1, corrected.  On deserialization from the interchange format, an
integer that fits in sixteen bits but lies outside the range the http crate
accepts (100 to 999) deserializes to an absent status_code rather than an
error; 999 lies inside that range, so it deserializes to a present status
code 999, not to absent. -/
theorem clf_C1 (n : Nat) (hn : n < 65536) (hout : n < 100 ∨ 1000 ≤ n) :
    deserialize_status_code (some n) = .ok none ∧
      deserialize_status_code (some 999) = .ok (some ⟨999⟩) := by
  constructor
  · have hf : StatusCode.from_u16 n = .error .mk := by
      unfold StatusCode.from_u16
      rw [if_pos hout]
    unfold deserialize_status_code
    dsimp only
    rw [if_neg (by omega), hf]
  · decide

/-- Witness for C1 at the concrete out-of-range input 1000. -/
theorem clf_C1_witness :
    deserialize_status_code (some 1000) = .ok none ∧
      deserialize_status_code (some 999) = .ok (some ⟨999⟩) :=
  clf_C1 1000 (by decide) (by decide)

/-- Counterexample to C1 as stated: the integer 999 does not deserialize to
an absent status_code; it deserializes to a present status code 999. -/
theorem clf_C1_counterexample :
    deserialize_status_code (some 999) = .ok (some ⟨999⟩) ∧
      deserialize_status_code (some 999) ≠ .ok none := by
  decide

/-- Claim C2, showing the code bug.  Four of the six peel functions reach the
branch their source marks unreachable when given the empty string, modelled
here by the outer none: they do not return Ok or a ParseError there.  The two
delimiter-checked peel functions return FieldNotFound on empty input. -/
theorem clf_C2 :
    peel_ip [] = none ∧ peel_usize [] = none ∧ peel_string [] = none ∧
      peel_status_code [] = none ∧
      peel_quoted_string [] = some (.error .FieldNotFound) ∧
      peel_timestamp [] = some (.error .FieldNotFound) :=
  ⟨by decide, by decide, by decide, by decide, by decide, by decide⟩

/-- Claim C3, corrected.  During line parsing of a non-absent status field,
the bounded substring either parses as a structurally valid http status code,
whose value then lies in 100 to 999 (not 100 to 599), or the peel fails with
StatusCodeParse. -/
theorem clf_C3 (c : Char) (t : List Char) (hc : c ≠ '-') :
    (∃ sc rem, peel_status_code (c :: t) = some (.ok (some sc, rem)) ∧
      100 ≤ sc.code ∧ sc.code ≤ 999) ∨
    (∃ err, peel_status_code (c :: t) = some (.error (.StatusCodeParse err))) := by
  cases hfb : StatusCode.from_bytes ((c :: t).take (firstSpaceIdx (c :: t))) with
  | ok sc =>
    left
    refine ⟨sc, trimStart ((c :: t).drop (firstSpaceIdx (c :: t))), ?_,
      (from_bytes_range hfb).1, (from_bytes_range hfb).2⟩
    rw [peel_status_code_eq]
    have hf2 : (match StatusCode.from_bytes ((c :: t).take (firstSpaceIdx (c :: t))) with
        | .ok sc2 => (Except.ok sc2 : Except LogEntryParseError StatusCode)
        | .error e2 => .error (.StatusCodeParse e2)) = .ok sc := by
      rw [hfb]
    exact peelTok_cons_ok c t hc hf2
  | error err =>
    right
    refine ⟨err, ?_⟩
    rw [peel_status_code_eq]
    have hf2 : (match StatusCode.from_bytes ((c :: t).take (firstSpaceIdx (c :: t))) with
        | .ok sc2 => (Except.ok sc2 : Except LogEntryParseError StatusCode)
        | .error e2 => .error (.StatusCodeParse e2)) =
        .error (.StatusCodeParse err) := by
      rw [hfb]
    exact peelTok_cons_err c t hc hf2

/-- Witness for C3 at the concrete field text 200 followed by more input. -/
theorem clf_C3_witness :
    (∃ sc rem, peel_status_code ('2' :: c3tail) = some (.ok (some sc, rem)) ∧
      100 ≤ sc.code ∧ sc.code ≤ 999) ∨
    (∃ err, peel_status_code ('2' :: c3tail) = some (.error (.StatusCodeParse err))) :=
  clf_C3 '2' c3tail (by decide)

/-- Counterexample to C3 as stated: the numeric value 999 is outside 100 to
599 yet parses successfully rather than failing with StatusCodeParse. -/
theorem clf_C3_counterexample :
    peel_status_code tok999 = some (.ok (some ⟨999⟩, [])) := by
  decide

/-- Claim C5, corrected.  For the four space-delimited peel shapes, the
terminator of the field is the first space character (or end of input), not
the first whitespace character of any kind: the token handed to the field
parser is the prefix before the first space, and contains no space. -/
theorem clf_C5 {α : Type} (f : List Char → Except LogEntryParseError α)
    (c : Char) (t : List Char) :
    (peelTok f (c :: t) =
      (if c = '-' then
        some (.ok (none, trimStart ((c :: t).drop (firstSpaceIdx (c :: t)))))
      else
        match f ((c :: t).take (firstSpaceIdx (c :: t))) with
        | .error e => some (.error e)
        | .ok v => some (.ok (some v, trimStart ((c :: t).drop (firstSpaceIdx (c :: t))))))) ∧
    ∀ b ∈ (c :: t).take (firstSpaceIdx (c :: t)), b ≠ ' ' :=
  ⟨peelTok_cons f c t, take_fsi_no_space _⟩

/-- Counterexample to C5 as stated: in the input with a tab inside the first
token, the parsed substring runs past the tab (a whitespace character) to the
first space, so the terminator is not the first whitespace character. -/
theorem clf_C5_counterexample :
    peel_string tabLine = some (.ok (some ('a' :: '\t' :: 'b' :: []), 'c' :: [])) ∧
      rustIsWhitespace '\t' = true ∧
      tabLine.takeWhile (fun b => !rustIsWhitespace b) = 'a' :: [] := by
  decide

/-- Claim C6, corrected.  When the timestamp field opens with a bracket and a
closing bracket exists, the bracketed content parses exactly when it is valid
RFC 3339 text, in which case the parsed instant is converted to UTC;
otherwise the peel fails with DateTimeParse.  The native CLF pattern
day/month-abbrev/year:time zone is not accepted (see the counterexample). -/
theorem clf_C6 (content rest : List Char) (hc : ']' ∉ content) :
    peel_timestamp ('[' :: (content ++ ']' :: rest)) =
      (match parse_from_rfc3339 content with
       | .ok dt => some (.ok (some dt.toUtc, trimStart rest))
       | .error e => some (.error (.DateTimeParse e))) := by
  have hfree2 : ∀ b ∈ '[' :: content, b ≠ ']' := by
    intro b hbm
    rcases List.mem_cons.mp hbm with rfl | hbm2
    · decide
    · intro hbe
      exact hc (hbe ▸ hbm2)
  have hfind : findCharIdx? ']' ('[' :: (content ++ ']' :: rest)) =
      some (content.length + 1) := by
    have := findCharIdx?_append hfree2 rest
    simpa using this
  have htake : (('[' :: (content ++ ']' :: rest)).take (content.length + 1)).drop 1 =
      content := by
    have h1 : ('[' :: (content ++ ']' :: rest)).take (content.length + 1) =
        '[' :: content := by
      have := @List.take_left' Char ('[' :: content) (']' :: rest)
        (content.length + 1) (by simp)
      simpa using this
    rw [h1]
    rfl
  have hdrop : ('[' :: (content ++ ']' :: rest)).drop (content.length + 1 + 1) = rest := by
    have := @List.drop_left' Char ('[' :: content ++ [']']) rest
      (content.length + 1 + 1) (by simp)
    simpa using this
  rw [peel_timestamp_cons, if_neg (by decide), if_pos rfl, hfind]
  cases hdt : parse_from_rfc3339 content with
  | error e => simp [htake, hdt]
  | ok dt => simp [htake, hdt, hdrop]

/-- Witness for C6: a valid RFC 3339 timestamp between brackets parses to the
expected UTC instant, while content whose offset minutes are out of range is
not RFC 3339 valid and so is rejected. -/
theorem clf_C6_witness :
    (peel_timestamp ('[' :: (rfcContent ++ ']' :: (' ' :: 'x' :: []))) =
      (match parse_from_rfc3339 rfcContent with
       | .ok dt => some (.ok (some dt.toUtc, trimStart (' ' :: 'x' :: [])))
       | .error e => some (.error (.DateTimeParse e)))) ∧
    parse_from_rfc3339 rfcContent = .ok ⟨851042397, 0, -28800⟩ ∧
    parse_from_rfc3339 tzBadContent = .error .outOfRange :=
  ⟨clf_C6 rfcContent (' ' :: 'x' :: []) (by decide), by decide, by decide⟩

/-- Counterexample to C6 as stated: bracketed content in the native CLF
pattern day/month-abbrev/year:time zone fails with DateTimeParse instead of
parsing successfully. -/
theorem clf_C6_counterexample :
    peel_timestamp clfNativeLine = some (.error (.DateTimeParse .invalid)) := by
  decide

/-- Claim C7, confirmed.  Each malformed field produces its dedicated error
kind: an IP whose octets overflow gives IpAddrParse, a timestamp with no
closing bracket gives FieldNotFound, a request line with no opening quote
gives FieldNotFound, a non-numeric status code gives StatusCodeParse, and a
non-numeric size gives SizeParse. -/
theorem clf_C7 :
    peel_ip badIpLine = some (.error (.IpAddrParse .ip)) ∧
      peel_timestamp noCloseTs = some (.error .FieldNotFound) ∧
      peel_quoted_string noQuoteLine = some (.error .FieldNotFound) ∧
      peel_status_code nonNumTok = some (.error (.StatusCodeParse .mk)) ∧
      peel_usize nonNumTok = some (.error (.SizeParse .invalidDigit)) :=
  ⟨by decide, by decide, by decide, by decide, by decide⟩

/-- Claim C10, confirmed.  On input starting with a dash, the quoted-string
and timestamp peels consume exactly the single dash character, while the four
space-delimited peels consume the whole token up to the first space; the
concrete input dash-x-space-rest leaves two different remainders. -/
theorem clf_C10 :
    (∀ t, peel_quoted_string ('-' :: t) = some (.ok (none, trimStart t))) ∧
      (∀ t, peel_timestamp ('-' :: t) = some (.ok (none, trimStart t))) ∧
      (∀ t, peel_ip ('-' :: t) =
        some (.ok (none, trimStart (('-' :: t).drop (firstSpaceIdx ('-' :: t)))))) ∧
      (∀ t, peel_string ('-' :: t) =
        some (.ok (none, trimStart (('-' :: t).drop (firstSpaceIdx ('-' :: t)))))) ∧
      (∀ t, peel_usize ('-' :: t) =
        some (.ok (none, trimStart (('-' :: t).drop (firstSpaceIdx ('-' :: t)))))) ∧
      (∀ t, peel_status_code ('-' :: t) =
        some (.ok (none, trimStart (('-' :: t).drop (firstSpaceIdx ('-' :: t)))))) ∧
      peel_quoted_string dashLine = some (.ok (none, xRest)) ∧
      peel_timestamp dashLine = some (.ok (none, xRest)) ∧
      peel_ip dashLine = some (.ok (none, restOnly)) ∧
      peel_string dashLine = some (.ok (none, restOnly)) ∧
      peel_usize dashLine = some (.ok (none, restOnly)) ∧
      peel_status_code dashLine = some (.ok (none, restOnly)) := by
  refine ⟨fun t => ?_, fun t => ?_, fun t => ?_, fun t => ?_, fun t => ?_, fun t => ?_,
    ?_, ?_, ?_, ?_, ?_, ?_⟩
  · rw [peel_quoted_cons, if_pos rfl]
  · rw [peel_timestamp_cons, if_pos rfl]
  · rw [peel_ip_eq, peelTok_cons, if_pos rfl]
  · rw [peel_string_eq, peelTok_cons, if_pos rfl]
  · rw [peel_usize_eq, peelTok_cons, if_pos rfl]
  · rw [peel_status_code_eq, peelTok_cons, if_pos rfl]
  · decide
  · decide
  · decide
  · decide
  · decide
  · decide

theorem take_head {r : List Char} {c : Char} {u : List Char} (hr : r = c :: u)
    {n : Nat} (hn : 0 < n) : ∃ w, r.take n = c :: w := by
  subst hr
  rw [List.take_cons hn]
  exact ⟨_, rfl⟩

/-- Claim C4, confirmed.  Every record produced by a successful parse of a
CLF line serializes to the interchange format and deserializes back to an
equal record, absent fields included: all fields map structurally, and a
parse-produced status code lies in the range that from_u16 accepts. -/
theorem clf_C4 (s : List Char) (e : LogEntry) (h : LogEntry.from_str s = some (.ok e)) :
    deserializeLogEntry (serializeLogEntry e) = .ok e := by
  obtain ⟨r1, r2, r3, r4, r5, r6, r7, h1, h2, h3, h4, h5, h6, h7⟩ := from_str_inv h
  obtain ⟨ho, hid, hau, hti, hrq, hst, hsz⟩ := e
  cases hst with
  | none => rfl
  | some sc =>
    obtain ⟨hlo, hhi⟩ := peel_status_range h6 rfl
    obtain ⟨code⟩ := sc
    simp only [StatusCode.code] at hlo hhi
    have hde : deserialize_status_code (some code) = .ok (some ⟨code⟩) := by
      unfold deserialize_status_code StatusCode.from_u16
      dsimp only
      rw [if_neg (by omega), if_neg (by omega)]
    unfold deserializeLogEntry serializeLogEntry serialize_status_code StatusCode.as_u16
    simp [hde]

/-- Witness for C4: the concrete line with status 200 and size 5 parses, and
its record round-trips through the interchange format. -/
theorem clf_C4_witness :
    LogEntry.from_str exLine = some (.ok exEntry) ∧
      deserializeLogEntry (serializeLogEntry exEntry) = .ok exEntry :=
  ⟨by decide, clf_C4 exLine exEntry (by decide)⟩

/-- Claim C9, confirmed.  Appending arbitrary extra text after the
object_size field of a line whose seven fields parse successfully still
yields a successful parse of the same record: the parser discards the
leftover after the last field. -/
theorem clf_C9 (s : List Char) (e : LogEntry) (h : LogEntry.from_str s = some (.ok e))
    (t : List Char) :
    LogEntry.from_str (s ++ ' ' :: t) = some (.ok e) := by
  obtain ⟨r1, r2, r3, r4, r5, r6, r7, h1, h2, h3, h4, h5, h6, h7⟩ := from_str_inv h
  rw [peel_ip_eq] at h1
  rw [peel_string_eq] at h2 h3
  rw [peel_status_code_eq] at h6
  rw [peel_usize_eq] at h7
  have ne1 : r1 ≠ [] := (peelTok_ok_inv h2).1
  have ne2 : r2 ≠ [] := (peelTok_ok_inv h3).1
  have ne3 : r3 ≠ [] := peel_timestamp_ok_ne_nil h4
  have ne4 : r4 ≠ [] := peel_quoted_ok_ne_nil h5
  have ne5 : r5 ≠ [] := (peelTok_ok_inv h6).1
  have ne6 : r6 ≠ [] := (peelTok_ok_inv h7).1
  have tr1 := peelTok_rem_trimmed h1
  have tr2 := peelTok_rem_trimmed h2
  have tr3 := peelTok_rem_trimmed h3
  have tr4 := peel_timestamp_rem_trimmed h4
  have tr5 := peel_quoted_rem_trimmed h5
  have tr6 := peelTok_rem_trimmed h6
  obtain ⟨c1, u1, hd1, hw1⟩ := trimmed_head tr1 ne1
  obtain ⟨c2, u2, hd2, hw2⟩ := trimmed_head tr2 ne2
  obtain ⟨c3, u3, hd3, hw3⟩ := trimmed_head tr3 ne3
  obtain ⟨c4, u4, hd4, hw4⟩ := trimmed_head tr4 ne4
  obtain ⟨c5, u5, hd5, hw5⟩ := trimmed_head tr5 ne5
  obtain ⟨c6, u6, hd6, hw6⟩ := trimmed_head tr6 ne6
  obtain ⟨ceq1, P1⟩ := peelTok_chunk h1 ne1
  obtain ⟨ceq2, P2⟩ := peelTok_chunk h2 ne2
  obtain ⟨ceq3, P3⟩ := peelTok_chunk h3 ne3
  obtain ⟨ceq4, P4⟩ := peel_timestamp_chunk h4 ne4
  obtain ⟨ceq5, P5⟩ := peel_quoted_chunk h5 ne5
  obtain ⟨ceq6, P6⟩ := peelTok_chunk h6 ne6
  have g1 := P1 c1 (u1 ++ ' ' :: t) hw1
  rw [← List.cons_append, ← hd1, ← List.append_assoc, ceq1] at g1
  have g2 := P2 c2 (u2 ++ ' ' :: t) hw2
  rw [← List.cons_append, ← hd2, ← List.append_assoc, ceq2] at g2
  have g3 := P3 c3 (u3 ++ ' ' :: t) hw3
  rw [← List.cons_append, ← hd3, ← List.append_assoc, ceq3] at g3
  have g4 := P4 c4 (u4 ++ ' ' :: t) hw4
  rw [← List.cons_append, ← hd4, ← List.append_assoc, ceq4] at g4
  have g5 := P5 c5 (u5 ++ ' ' :: t) hw5
  rw [← List.cons_append, ← hd5, ← List.append_assoc, ceq5] at g5
  have g6 := P6 c6 (u6 ++ ' ' :: t) hw6
  rw [← List.cons_append, ← hd6, ← List.append_assoc, ceq6] at g6
  obtain ⟨r7b, g7⟩ := peelTok_append_space h7 t
  exact from_str_build g1 g2 g3 g4 g5 g6 g7

/-- Witness for C9: trailing junk after the size field of the concrete line
leaves the parsed record unchanged. -/
theorem clf_C9_witness :
    LogEntry.from_str (exLine ++ ' ' :: exTail) = some (.ok exEntry) :=
  clf_C9 exLine exEntry (by decide) exTail

/-- Claim C8, confirmed.  For every field position of a successfully parsed
line, replacing that field's consumed text by the absent marker (a dash and a
space, the surrounding text unchanged) yields a successful parse whose record
has that field absent and every other field equal to the original. -/
theorem clf_C8 (s : List Char) (e : LogEntry) (h : LogEntry.from_str s = some (.ok e))
    (k : Nat) (hk : k < 7) (hsome : fieldIsSome e k = true) :
    ∃ repl, replaceField s k = some repl ∧
      LogEntry.from_str repl = some (.ok (clearField e k)) ∧
      fieldIsSome (clearField e k) k = false ∧
      fieldsEqExcept (clearField e k) e k := by
  obtain ⟨r1, r2, r3, r4, r5, r6, r7, h1, h2, h3, h4, h5, h6, h7⟩ := from_str_inv h
  have hrems : peelRems s = some [r1, r2, r3, r4, r5, r6, r7] :=
    peelRems_build h1 h2 h3 h4 h5 h6 h7
  rw [peel_ip_eq] at h1
  rw [peel_string_eq] at h2 h3
  rw [peel_status_code_eq] at h6
  rw [peel_usize_eq] at h7
  have ne1 : r1 ≠ [] := (peelTok_ok_inv h2).1
  have ne2 : r2 ≠ [] := (peelTok_ok_inv h3).1
  have ne3 : r3 ≠ [] := peel_timestamp_ok_ne_nil h4
  have ne4 : r4 ≠ [] := peel_quoted_ok_ne_nil h5
  have ne5 : r5 ≠ [] := (peelTok_ok_inv h6).1
  have ne6 : r6 ≠ [] := (peelTok_ok_inv h7).1
  have tr1 := peelTok_rem_trimmed h1
  have tr2 := peelTok_rem_trimmed h2
  have tr3 := peelTok_rem_trimmed h3
  have tr4 := peel_timestamp_rem_trimmed h4
  have tr5 := peel_quoted_rem_trimmed h5
  have tr6 := peelTok_rem_trimmed h6
  have tr7 := peelTok_rem_trimmed h7
  obtain ⟨c1, u1, hd1, hw1⟩ := trimmed_head tr1 ne1
  obtain ⟨c2, u2, hd2, hw2⟩ := trimmed_head tr2 ne2
  obtain ⟨c3, u3, hd3, hw3⟩ := trimmed_head tr3 ne3
  obtain ⟨c4, u4, hd4, hw4⟩ := trimmed_head tr4 ne4
  obtain ⟨c5, u5, hd5, hw5⟩ := trimmed_head tr5 ne5
  obtain ⟨ceq1, P1⟩ := peelTok_chunk h1 ne1
  obtain ⟨ceq2, P2⟩ := peelTok_chunk h2 ne2
  obtain ⟨ceq3, P3⟩ := peelTok_chunk h3 ne3
  obtain ⟨ceq4, P4⟩ := peel_timestamp_chunk h4 ne4
  obtain ⟨ceq5, P5⟩ := peel_quoted_chunk h5 ne5
  obtain ⟨ceq6, P6⟩ := peelTok_chunk h6 ne6
  have cons2 : r2.length < r1.length := by
    rw [hd1]
    exact peelTok_consumes (hd1 ▸ h2) (not_space_of_not_ws hw1)
  have cons3 : r3.length < r2.length := by
    rw [hd2]
    exact peelTok_consumes (hd2 ▸ h3) (not_space_of_not_ws hw2)
  have cons4 : r4.length < r3.length := peel_timestamp_consumes h4
  have cons5 : r5.length < r4.length := peel_quoted_consumes h5
  have cons6 : r6.length < r5.length := by
    rw [hd5]
    exact peelTok_consumes (hd5 ▸ h6) (not_space_of_not_ws hw5)
  have hCh2 : ∃ w, r1.take (r1.length - r2.length) = c1 :: w := take_head hd1 (by omega)
  have hCh3 : ∃ w, r2.take (r2.length - r3.length) = c2 :: w := take_head hd2 (by omega)
  have hCh4 : ∃ w, r3.take (r3.length - r4.length) = c3 :: w := take_head hd3 (by omega)
  have hCh5 : ∃ w, r4.take (r4.length - r5.length) = c4 :: w := take_head hd4 (by omega)
  have hCh6 : ∃ w, r5.take (r5.length - r6.length) = c5 :: w := take_head hd5 (by omega)
  obtain ⟨C1, hC1⟩ : ∃ C, s.take (s.length - r1.length) = C := ⟨_, rfl⟩
  obtain ⟨C2, hC2⟩ : ∃ C, r1.take (r1.length - r2.length) = C := ⟨_, rfl⟩
  obtain ⟨C3, hC3⟩ : ∃ C, r2.take (r2.length - r3.length) = C := ⟨_, rfl⟩
  obtain ⟨C4, hC4⟩ : ∃ C, r3.take (r3.length - r4.length) = C := ⟨_, rfl⟩
  obtain ⟨C5, hC5⟩ : ∃ C, r4.take (r4.length - r5.length) = C := ⟨_, rfl⟩
  obtain ⟨C6, hC6⟩ : ∃ C, r5.take (r5.length - r6.length) = C := ⟨_, rfl⟩
  rw [hC1] at ceq1 P1
  rw [hC2] at ceq2 P2 hCh2
  rw [hC3] at ceq3 P3 hCh3
  rw [hC4] at ceq4 P4 hCh4
  rw [hC5] at ceq5 P5 hCh5
  rw [hC6] at ceq6 P6 hCh6
  have hpre2 : s = (C1 ++ C2) ++ r2 := by
    rw [List.append_assoc, ceq2, ceq1]
  have hpre3 : s = ((C1 ++ C2) ++ C3) ++ r3 := by
    rw [List.append_assoc, ceq3]
    exact hpre2
  have hpre4 : s = (((C1 ++ C2) ++ C3) ++ C4) ++ r4 := by
    rw [List.append_assoc, ceq4]
    exact hpre3
  have hpre5 : s = ((((C1 ++ C2) ++ C3) ++ C4) ++ C5) ++ r5 := by
    rw [List.append_assoc, ceq5]
    exact hpre4
  have hpre6 : s = (((((C1 ++ C2) ++ C3) ++ C4) ++ C5) ++ C6) ++ r6 := by
    rw [List.append_assoc, ceq6]
    exact hpre5
  have htk2 : s.take (s.length - r2.length) = C1 ++ C2 := by
    rw [hpre2]
    exact take_chunk_of_append _ _
  have htk3 : s.take (s.length - r3.length) = (C1 ++ C2) ++ C3 := by
    rw [hpre3]
    exact take_chunk_of_append _ _
  have htk4 : s.take (s.length - r4.length) = ((C1 ++ C2) ++ C3) ++ C4 := by
    rw [hpre4]
    exact take_chunk_of_append _ _
  have htk5 : s.take (s.length - r5.length) = (((C1 ++ C2) ++ C3) ++ C4) ++ C5 := by
    rw [hpre5]
    exact take_chunk_of_append _ _
  have htk6 : s.take (s.length - r6.length) = ((((C1 ++ C2) ++ C3) ++ C4) ++ C5) ++ C6 := by
    rw [hpre6]
    exact take_chunk_of_append _ _
  interval_cases k
  · refine ⟨'-' :: ' ' :: r1, ?_, ?_, ?_, ?_⟩
    · unfold replaceField
      rw [hrems]
      simp [List.getD]
    · exact from_str_build (peelTok_dash _ tr1) h2 h3 h4 h5 h6 h7
    · rfl
    · simp [fieldsEqExcept, clearField]
  · refine ⟨C1 ++ '-' :: ' ' :: r2, ?_, ?_, ?_, ?_⟩
    · unfold replaceField
      rw [hrems]
      simp [List.getD, hC1]
    · exact from_str_build (P1 '-' (' ' :: r2) ws_dash) (peelTok_dash _ tr2) h3 h4 h5 h6 h7
    · rfl
    · simp [fieldsEqExcept, clearField]
  · refine ⟨(C1 ++ C2) ++ '-' :: ' ' :: r3, ?_, ?_, ?_, ?_⟩
    · unfold replaceField
      rw [hrems]
      simp [List.getD, htk2]
    · obtain ⟨w2, hw2c⟩ := hCh2
      have g2 := P2 '-' (' ' :: r3) ws_dash
      have g1 := P1 c1 (w2 ++ '-' :: ' ' :: r3) hw1
      rw [← List.cons_append, ← hw2c] at g1
      simp only [List.append_assoc]
      exact from_str_build g1 g2 (peelTok_dash _ tr3) h4 h5 h6 h7
    · rfl
    · simp [fieldsEqExcept, clearField]
  · refine ⟨((C1 ++ C2) ++ C3) ++ '-' :: ' ' :: r4, ?_, ?_, ?_, ?_⟩
    · unfold replaceField
      rw [hrems]
      simp [List.getD, htk3]
    · obtain ⟨w2, hw2c⟩ := hCh2
      obtain ⟨w3, hw3c⟩ := hCh3
      have g3 := P3 '-' (' ' :: r4) ws_dash
      have g2 := P2 c2 (w3 ++ '-' :: ' ' :: r4) hw2
      rw [← List.cons_append, ← hw3c] at g2
      have g1 := P1 c1 (w2 ++ (C3 ++ '-' :: ' ' :: r4)) hw1
      rw [← List.cons_append, ← hw2c] at g1
      simp only [List.append_assoc]
      exact from_str_build g1 g2 g3 (peel_timestamp_dash tr4) h5 h6 h7
    · rfl
    · simp [fieldsEqExcept, clearField]
  · refine ⟨(((C1 ++ C2) ++ C3) ++ C4) ++ '-' :: ' ' :: r5, ?_, ?_, ?_, ?_⟩
    · unfold replaceField
      rw [hrems]
      simp [List.getD, htk4]
    · obtain ⟨w2, hw2c⟩ := hCh2
      obtain ⟨w3, hw3c⟩ := hCh3
      obtain ⟨w4, hw4c⟩ := hCh4
      have g4 := P4 '-' (' ' :: r5) ws_dash
      have g3 := P3 c3 (w4 ++ '-' :: ' ' :: r5) hw3
      rw [← List.cons_append, ← hw4c] at g3
      have g2 := P2 c2 (w3 ++ (C4 ++ '-' :: ' ' :: r5)) hw2
      rw [← List.cons_append, ← hw3c] at g2
      have g1 := P1 c1 (w2 ++ (C3 ++ (C4 ++ '-' :: ' ' :: r5))) hw1
      rw [← List.cons_append, ← hw2c] at g1
      simp only [List.append_assoc]
      exact from_str_build g1 g2 g3 g4 (peel_quoted_dash tr5) h6 h7
    · rfl
    · simp [fieldsEqExcept, clearField]
  · refine ⟨((((C1 ++ C2) ++ C3) ++ C4) ++ C5) ++ '-' :: ' ' :: r6, ?_, ?_, ?_, ?_⟩
    · unfold replaceField
      rw [hrems]
      simp [List.getD, htk5]
    · obtain ⟨w2, hw2c⟩ := hCh2
      obtain ⟨w3, hw3c⟩ := hCh3
      obtain ⟨w4, hw4c⟩ := hCh4
      obtain ⟨w5, hw5c⟩ := hCh5
      have g5 := P5 '-' (' ' :: r6) ws_dash
      have g4 := P4 c4 (w5 ++ '-' :: ' ' :: r6) hw4
      rw [← List.cons_append, ← hw5c] at g4
      have g3 := P3 c3 (w4 ++ (C5 ++ '-' :: ' ' :: r6)) hw3
      rw [← List.cons_append, ← hw4c] at g3
      have g2 := P2 c2 (w3 ++ (C4 ++ (C5 ++ '-' :: ' ' :: r6))) hw2
      rw [← List.cons_append, ← hw3c] at g2
      have g1 := P1 c1 (w2 ++ (C3 ++ (C4 ++ (C5 ++ '-' :: ' ' :: r6)))) hw1
      rw [← List.cons_append, ← hw2c] at g1
      simp only [List.append_assoc]
      exact from_str_build g1 g2 g3 g4 g5 (peelTok_dash _ tr6) h7
    · rfl
    · simp [fieldsEqExcept, clearField]
  · refine ⟨(((((C1 ++ C2) ++ C3) ++ C4) ++ C5) ++ C6) ++ '-' :: ' ' :: r7, ?_, ?_, ?_, ?_⟩
    · unfold replaceField
      rw [hrems]
      simp [List.getD, htk6]
    · obtain ⟨w2, hw2c⟩ := hCh2
      obtain ⟨w3, hw3c⟩ := hCh3
      obtain ⟨w4, hw4c⟩ := hCh4
      obtain ⟨w5, hw5c⟩ := hCh5
      obtain ⟨w6, hw6c⟩ := hCh6
      have g6 := P6 '-' (' ' :: r7) ws_dash
      have g5 := P5 c5 (w6 ++ '-' :: ' ' :: r7) hw5
      rw [← List.cons_append, ← hw6c] at g5
      have g4 := P4 c4 (w5 ++ (C6 ++ '-' :: ' ' :: r7)) hw4
      rw [← List.cons_append, ← hw5c] at g4
      have g3 := P3 c3 (w4 ++ (C5 ++ (C6 ++ '-' :: ' ' :: r7))) hw3
      rw [← List.cons_append, ← hw4c] at g3
      have g2 := P2 c2 (w3 ++ (C4 ++ (C5 ++ (C6 ++ '-' :: ' ' :: r7)))) hw2
      rw [← List.cons_append, ← hw3c] at g2
      have g1 := P1 c1 (w2 ++ (C3 ++ (C4 ++ (C5 ++ (C6 ++ '-' :: ' ' :: r7))))) hw1
      rw [← List.cons_append, ← hw2c] at g1
      simp only [List.append_assoc]
      exact from_str_build g1 g2 g3 g4 g5 g6 (peelTok_dash _ tr7)
    · rfl
    · simp [fieldsEqExcept, clearField]

/-- Witness for C8: replacing the status-code field of the concrete line
yields the same record with status_code absent. -/
theorem clf_C8_witness :
    ∃ repl, replaceField exLine 5 = some repl ∧
      LogEntry.from_str repl = some (.ok (clearField exEntry 5)) ∧
      fieldIsSome (clearField exEntry 5) 5 = false ∧
      fieldsEqExcept (clearField exEntry 5) exEntry 5 :=
  clf_C8 exLine exEntry (by decide) 5 (by decide) (by decide)

end CLF
